import Mathlib

/-!
Verification development for the htmz secure proxy server
(`src/proxy/server.js`), a TOML-configured loopback HMAC-authenticating
forwarding proxy.  The JavaScript source is shallowly embedded below:
pure helper functions become Lean functions over `Nat`/`String`/lists,
JavaScript machine integers are `Nat` reduced modulo `2 ^ 32` where the
source relies on 32-bit wrap-around, and fallible operations (JSON
parsing, `new URL`, thrown exceptions) return `Option`/`Except`.
-/

namespace Htmz

set_option maxRecDepth 100000

/-! ## 32-bit word arithmetic (crypto primitives operate on 32-bit words) -/

/-- Reduce modulo `2 ^ 32`: JavaScript/Node crypto arithmetic is on 32-bit
words; we model words as `Nat` kept below `4294967296`. -/
def w32 (x : Nat) : Nat := x % 4294967296

/-- Right rotation of a 32-bit word by `n` bits. -/
def rotr32 (n x : Nat) : Nat := w32 (x / 2 ^ n + x % 2 ^ n * 2 ^ (32 - n))

/-- Logical right shift. -/
def shr32 (n x : Nat) : Nat := x / 2 ^ n

/-- Bitwise complement of a 32-bit word (exact for `x < 2 ^ 32`). -/
def not32 (x : Nat) : Nat := 4294967295 - x

/-! ## SHA-256 (the `crypto.createHmac('sha256', …)` primitive)

A straightforward executable embedding of FIPS 180-4 SHA-256 over byte
lists (bytes are `Nat` below 256), used by `verifyHMAC` in the source. -/

/-- SHA-256 Ch function. -/
def shaCh (x y z : Nat) : Nat := (x &&& y) ^^^ (not32 x &&& z)

/-- SHA-256 Maj function. -/
def shaMaj (x y z : Nat) : Nat := ((x &&& y) ^^^ (x &&& z)) ^^^ (y &&& z)

/-- SHA-256 big sigma-0. -/
def bigSigma0 (x : Nat) : Nat := (rotr32 2 x ^^^ rotr32 13 x) ^^^ rotr32 22 x

/-- SHA-256 big sigma-1. -/
def bigSigma1 (x : Nat) : Nat := (rotr32 6 x ^^^ rotr32 11 x) ^^^ rotr32 25 x

/-- SHA-256 small sigma-0. -/
def smallSigma0 (x : Nat) : Nat := (rotr32 7 x ^^^ rotr32 18 x) ^^^ shr32 3 x

/-- SHA-256 small sigma-1. -/
def smallSigma1 (x : Nat) : Nat := (rotr32 17 x ^^^ rotr32 19 x) ^^^ shr32 10 x

/-- The 64 SHA-256 round constants. -/
def shaK : List Nat :=
  [1116352408, 1899447441, 3049323471, 3921009573, 961987163, 1508970993,
   2453635748, 2870763221, 3624381080, 310598401, 607225278, 1426881987,
   1925078388, 2162078206, 2614888103, 3248222580, 3835390401, 4022224774,
   264347078, 604807628, 770255983, 1249150122, 1555081692, 1996064986,
   2554220882, 2821834349, 2952996808, 3210313671, 3336571891, 3584528711,
   113926993, 338241895, 666307205, 773529912, 1294757372, 1396182291,
   1695183700, 1986661051, 2177026350, 2456956037, 2730485921, 2820302411,
   3259730800, 3345764771, 3516065817, 3600352804, 4094571909, 275423344,
   430227734, 506948616, 659060556, 883997877, 958139571, 1322822218,
   1537002063, 1747873779, 1955562222, 2024104815, 2227730452, 2361852424,
   2428436474, 2756734187, 3204031479, 3329325298]

/-- The eight SHA-256 working registers during a compression round. -/
structure ShaRegs where
  a : Nat
  b : Nat
  c : Nat
  d : Nat
  e : Nat
  f : Nat
  g : Nat
  h : Nat

/-- The SHA-256 chaining state: eight 32-bit words. -/
structure ShaState where
  h0 : Nat
  h1 : Nat
  h2 : Nat
  h3 : Nat
  h4 : Nat
  h5 : Nat
  h6 : Nat
  h7 : Nat

/-- SHA-256 initial hash value. -/
def shaInit : ShaState :=
  ⟨1779033703, 3144134277, 1013904242, 2773480762,
   1359893119, 2600822924, 528734635, 1541459225⟩

/-- One SHA-256 compression round with round constant `k` and message
schedule word `w`. -/
def shaRound (r : ShaRegs) (kw : Nat × Nat) : ShaRegs :=
  let t1 := w32 (r.h + bigSigma1 r.e + shaCh r.e r.f r.g + kw.1 + kw.2)
  let t2 := w32 (bigSigma0 r.a + shaMaj r.a r.b r.c)
  ⟨w32 (t1 + t2), r.a, r.b, r.c, w32 (r.d + t1), r.e, r.f, r.g⟩

/-- Pack big-endian groups of four bytes into 32-bit words. -/
def bytesToWords : List Nat → List Nat
  | b0 :: b1 :: b2 :: b3 :: rest =>
      (((b0 * 256 + b1) * 256 + b2) * 256 + b3) :: bytesToWords rest
  | _ => []

/-- Extend the 16 block words to the full 64-word message schedule,
appending `n` additional words. -/
def shaExtend : Nat → List Nat → List Nat
  | 0, w => w
  | n + 1, w =>
      let len := w.length
      let x := w32 (smallSigma1 (w.getD (len - 2) 0) + w.getD (len - 7) 0 +
                    smallSigma0 (w.getD (len - 15) 0) + w.getD (len - 16) 0)
      shaExtend n (w ++ [x])

/-- Compress one 64-byte block into the chaining state. -/
def shaCompress (st : ShaState) (block : List Nat) : ShaState :=
  let sched := shaExtend 48 (bytesToWords block)
  let r0 : ShaRegs := ⟨st.h0, st.h1, st.h2, st.h3, st.h4, st.h5, st.h6, st.h7⟩
  let r := (shaK.zip sched).foldl shaRound r0
  ⟨w32 (st.h0 + r.a), w32 (st.h1 + r.b), w32 (st.h2 + r.c), w32 (st.h3 + r.d),
   w32 (st.h4 + r.e), w32 (st.h5 + r.f), w32 (st.h6 + r.g), w32 (st.h7 + r.h)⟩

/-- Process `n` consecutive 64-byte blocks of `bytes`. -/
def shaBlocks : Nat → List Nat → ShaState → ShaState
  | 0, _, st => st
  | n + 1, bytes, st => shaBlocks n (bytes.drop 64) (shaCompress st (bytes.take 64))

/-- SHA-256 padding: append `0x80`, zero bytes to 56 mod 64, then the
64-bit big-endian bit length. -/
def shaPad (msg : List Nat) : List Nat :=
  let len := msg.length
  let padLen := (119 - len % 64) % 64
  let bitLen := len * 8
  msg ++ [0x80] ++ List.replicate padLen 0 ++
    [bitLen / 2 ^ 56 % 256, bitLen / 2 ^ 48 % 256, bitLen / 2 ^ 40 % 256,
     bitLen / 2 ^ 32 % 256, bitLen / 2 ^ 24 % 256, bitLen / 2 ^ 16 % 256,
     bitLen / 2 ^ 8 % 256, bitLen % 256]

/-- Serialize one 32-bit word to four big-endian bytes. -/
def wordBytes (w : Nat) : List Nat :=
  [w / 2 ^ 24 % 256, w / 2 ^ 16 % 256, w / 2 ^ 8 % 256, w % 256]

/-- SHA-256 of a byte list, as the 32 digest bytes. -/
def sha256 (msg : List Nat) : List Nat :=
  let padded := shaPad msg
  let st := shaBlocks (padded.length / 64) padded shaInit
  wordBytes st.h0 ++ wordBytes st.h1 ++ wordBytes st.h2 ++ wordBytes st.h3 ++
    wordBytes st.h4 ++ wordBytes st.h5 ++ wordBytes st.h6 ++ wordBytes st.h7

/-- HMAC-SHA256 (RFC 2104) over byte lists, as used by
`crypto.createHmac('sha256', secret)`. -/
def hmacSha256 (key msg : List Nat) : List Nat :=
  let k0 := if key.length > 64 then sha256 key else key
  let kPadded := k0 ++ List.replicate (64 - k0.length) 0
  let ipad := kPadded.map (fun b => b ^^^ 0x36)
  let opad := kPadded.map (fun b => b ^^^ 0x5c)
  sha256 (opad ++ sha256 (ipad ++ msg))

/-! ## Byte/string conversions: UTF-8, hex, base64 -/

/-- UTF-8 encoding of one character (code points are `Char`s, so below
`0x110000`). -/
def utf8EncodeChar (c : Char) : List Nat :=
  let n := c.toNat
  if n < 128 then [n]
  else if n < 2048 then [192 + n / 64, 128 + n % 64]
  else if n < 65536 then [224 + n / 4096, 128 + n / 64 % 64, 128 + n % 64]
  else [240 + n / 262144, 128 + n / 4096 % 64, 128 + n / 64 % 64, 128 + n % 64]

/-- UTF-8 bytes of a string, matching Node's `Buffer.from(s, 'utf8')` and
the default encoding of `hash.update(string)`. -/
def utf8Bytes (s : String) : List Nat := s.data.flatMap utf8EncodeChar

/-- Lowercase hex digit for a value below 16. -/
def hexCharOfNat (n : Nat) : Char :=
  if n < 10 then Char.ofNat (48 + n) else Char.ofNat (87 + n % 16)

/-- Two lowercase hex digits of one byte (`digest('hex')` output format). -/
def byteToHex (b : Nat) : List Char :=
  [hexCharOfNat (b / 16 % 16), hexCharOfNat (b % 16)]

/-- Lowercase hex string of a byte list, as produced by `digest('hex')`. -/
def bytesToHex (bs : List Nat) : String := String.mk (bs.flatMap byteToHex)

/-- Value of one hex digit character, if it is one (upper or lower case). -/
def hexDigitVal (c : Char) : Option Nat :=
  if '0' ≤ c ∧ c ≤ '9' then some (c.toNat - 48)
  else if 'a' ≤ c ∧ c ≤ 'f' then some (c.toNat - 87)
  else if 'A' ≤ c ∧ c ≤ 'F' then some (c.toNat - 55)
  else none

/-- Node `Buffer.from(s, 'hex')` semantics on the character list: decode
hex digit pairs from the front and stop (truncate, never throw) at the
first character pair that is not two hex digits, including a dangling
final digit. -/
def nodeHexDecodeAux : List Char → List Nat
  | c1 :: c2 :: rest =>
      match hexDigitVal c1, hexDigitVal c2 with
      | some hi, some lo => (hi * 16 + lo) :: nodeHexDecodeAux rest
      | _, _ => []
  | _ => []

/-- Node `Buffer.from(s, 'hex')` as a byte list. -/
def nodeHexDecode (s : String) : List Nat := nodeHexDecodeAux s.data

/-- Base64 alphabet. -/
def base64Char (n : Nat) : Char :=
  "ABCDEFGHIJKLMNOPQRSTUVWXYZabcdefghijklmnopqrstuvwxyz0123456789+/".data.getD n '='

/-- Standard base64 with padding, matching `Buffer.toString('base64')`. -/
def base64Encode : List Nat → String
  | b0 :: b1 :: b2 :: rest =>
      String.mk [base64Char (b0 / 4), base64Char (b0 % 4 * 16 + b1 / 16),
                 base64Char (b1 % 16 * 4 + b2 / 64), base64Char (b2 % 64)] ++
        base64Encode rest
  | [b0, b1] =>
      String.mk [base64Char (b0 / 4), base64Char (b0 % 4 * 16 + b1 / 16),
                 base64Char (b1 % 16 * 4), '=']
  | [b0] =>
      String.mk [base64Char (b0 / 4), base64Char (b0 % 4 * 16), '=', '=']
  | [] => ""

/-! ## JSON values

JavaScript JSON values as produced by `JSON.parse`.  A number is kept as
its source token: the claims under verification never depend on numeric
values of descriptor fields, and a numeric token contains no `:` so it
can never change the outcome of a `new URL` parse; the one modelling gap
is that `JSON.stringify` would re-render a parsed number (for example
`1.0` as `1`) while this embedding re-emits the token.  Object fields
keep insertion order, which for the string keys relevant here (none of
them array-index-like) is exactly the V8 property order preserved from
the parsed text.  `JsonFields` also serves as the model of a plain
JavaScript string-keyed object such as a headers object. -/

/-- The opening curly brace character. -/
def lbrace : Char := Char.ofNat 123

/-- The closing curly brace character. -/
def rbrace : Char := Char.ofNat 125

mutual
inductive Json where
  | jnull : Json
  | jbool (b : Bool) : Json
  | jnum (token : String) : Json
  | jstr (s : String) : Json
  | jarr (elems : JsonItems) : Json
  | jobj (fields : JsonFields) : Json
  deriving DecidableEq

inductive JsonItems where
  | nil : JsonItems
  | cons (hd : Json) (tl : JsonItems) : JsonItems
  deriving DecidableEq

inductive JsonFields where
  | nil : JsonFields
  | cons (key : String) (val : Json) (tl : JsonFields) : JsonFields
  deriving DecidableEq
end

/-- Property lookup in a JavaScript object (first binding wins; parsed
objects never carry duplicate keys because parsing collapses them). -/
def JsonFields.getF : JsonFields → String → Option Json
  | .nil, _ => none
  | .cons k v tl, key => if k = key then some v else tl.getF key

/-- JavaScript property assignment `o[k] = v`: overwrite in place when the
key exists, append otherwise. -/
def JsonFields.setF : JsonFields → String → Json → JsonFields
  | .nil, key, v => .cons key v .nil
  | .cons k v0 tl, key, v =>
      if k = key then .cons k v tl else .cons k v0 (tl.setF key v)

/-- Append of field lists, used to model spreading one object after
another base object. -/
def JsonFields.appendF : JsonFields → JsonFields → JsonFields
  | .nil, gs => gs
  | .cons k v tl, gs => .cons k v (tl.appendF gs)

/-- Append one element at the end of an item list. -/
def JsonItems.snoc : JsonItems → Json → JsonItems
  | .nil, x => .cons x .nil
  | .cons h tl, x => .cons h (tl.snoc x)

/-- `JSON.stringify` escaping of one string character. -/
def jsonEscapeChar (c : Char) : List Char :=
  if c = '"' then ['\\', '"']
  else if c = '\\' then ['\\', '\\']
  else if c = Char.ofNat 8 then ['\\', 'b']
  else if c = '\t' then ['\\', 't']
  else if c = '\n' then ['\\', 'n']
  else if c = Char.ofNat 12 then ['\\', 'f']
  else if c = Char.ofNat 13 then ['\\', 'r']
  else if c.toNat < 32 then
    ['\\', 'u', '0', '0', hexCharOfNat (c.toNat / 16), hexCharOfNat (c.toNat % 16)]
  else [c]

/-- `JSON.stringify` rendering of a string, quotes included. -/
def jsonQuote (s : String) : String :=
  "\"" ++ String.mk (s.data.flatMap jsonEscapeChar) ++ "\""

mutual
/-- `JSON.stringify(v)` for a parsed JSON value: the serialization the
proxy feeds to HMAC in `verifyHMAC` (`server.js:146`).  No spaces, object
fields in stored (insertion) order. -/
def jsonStringify : Json → String
  | .jnull => "null"
  | .jbool b => if b then "true" else "false"
  | .jnum t => t
  | .jstr s => jsonQuote s
  | .jarr xs => "[" ++ stringifyItems xs ++ "]"
  | .jobj fs => String.mk [lbrace] ++ stringifyFields fs ++ String.mk [rbrace]

/-- Comma-separated serialization of array elements. -/
def stringifyItems : JsonItems → String
  | .nil => ""
  | .cons x .nil => jsonStringify x
  | .cons x (.cons y rest) => jsonStringify x ++ "," ++ stringifyItems (.cons y rest)

/-- Comma-separated serialization of object fields. -/
def stringifyFields : JsonFields → String
  | .nil => ""
  | .cons k v .nil => jsonQuote k ++ ":" ++ jsonStringify v
  | .cons k v (.cons k2 v2 rest) =>
      jsonQuote k ++ ":" ++ jsonStringify v ++ "," ++
        stringifyFields (.cons k2 v2 rest)
end

/-! ## JSON parsing (`JSON.parse`)

A fuel-indexed recursive-descent parser implementing the JSON grammar as
`JSON.parse` does: exact `null`/`true`/`false` literals, strict number
grammar (no leading `+`, no bare `.`, no leading zeros), string escapes,
and whole-input consumption.  Duplicate object keys keep the first
occurrence's position with the last occurrence's value, as in V8.
Escaped lone surrogates (`\uD800`–`\uDFFF`) are the one unmodelled
corner: `Char.ofNat` maps them to NUL. -/

/-- JSON insignificant whitespace. -/
def isJsonWs (c : Char) : Bool := c = ' ' ∨ c = '\t' ∨ c = '\n' ∨ c = Char.ofNat 13

/-- Skip insignificant whitespace. -/
def skipWs (cs : List Char) : List Char := cs.dropWhile isJsonWs

/-- Decode the body of a JSON string after the opening quote, returning
the decoded characters and the input after the closing quote. -/
def parseStringBody : List Char → Option (List Char × List Char)
  | [] => none
  | c :: rest =>
      if c = '"' then some ([], rest)
      else if c = '\\' then
        match rest with
        | [] => none
        | e :: rest2 =>
            if e = '"' ∨ e = '\\' ∨ e = '/' then
              (parseStringBody rest2).map (fun p => (e :: p.1, p.2))
            else if e = 'b' then
              (parseStringBody rest2).map (fun p => (Char.ofNat 8 :: p.1, p.2))
            else if e = 'f' then
              (parseStringBody rest2).map (fun p => (Char.ofNat 12 :: p.1, p.2))
            else if e = 'n' then
              (parseStringBody rest2).map (fun p => ('\n' :: p.1, p.2))
            else if e = 'r' then
              (parseStringBody rest2).map (fun p => (Char.ofNat 13 :: p.1, p.2))
            else if e = 't' then
              (parseStringBody rest2).map (fun p => ('\t' :: p.1, p.2))
            else if e = 'u' then
              match rest2 with
              | h1 :: h2 :: h3 :: h4 :: rest3 =>
                  match hexDigitVal h1, hexDigitVal h2, hexDigitVal h3, hexDigitVal h4 with
                  | some a, some b, some c3, some d =>
                      (parseStringBody rest3).map
                        (fun p => (Char.ofNat (((a * 16 + b) * 16 + c3) * 16 + d) :: p.1, p.2))
                  | _, _, _, _ => none
              | _ => none
            else none
      else if c.toNat < 32 then none
      else (parseStringBody rest).map (fun p => (c :: p.1, p.2))

/-- ASCII digit test. -/
def isDigitChar (c : Char) : Bool := '0' ≤ c ∧ c ≤ '9'

/-- Scan a JSON number token (strict JSON grammar), returning the token
characters and the rest of the input. -/
def parseNumberToken (cs : List Char) : Option (List Char × List Char) :=
  let (sign, cs1) :=
    match cs with
    | c :: rest => if c = '-' then (['-'], rest) else (([] : List Char), cs)
    | [] => (([] : List Char), cs)
  match cs1 with
  | [] => none
  | c :: rest =>
      if ¬ isDigitChar c then none
      else
        let (intPart, cs2) :=
          if c = '0' then ([c], rest)
          else (c :: rest.takeWhile isDigitChar, rest.dropWhile isDigitChar)
        let fracRes : Option (List Char × List Char) :=
          match cs2 with
          | d :: rest2 =>
              if d = '.' then
                match rest2 with
                | e :: _ =>
                    if isDigitChar e then
                      some (d :: rest2.takeWhile isDigitChar, rest2.dropWhile isDigitChar)
                    else none
                | [] => none
              else some ([], cs2)
          | [] => some ([], cs2)
        match fracRes with
        | none => none
        | some (fracPart, cs3) =>
          let expRes : Option (List Char × List Char) :=
            match cs3 with
            | e :: rest3 =>
                if e = 'e' ∨ e = 'E' then
                  let (esign, rest4) :=
                    match rest3 with
                    | s :: rest5 => if s = '+' ∨ s = '-' then ([s], rest5) else (([] : List Char), rest3)
                    | [] => (([] : List Char), rest3)
                  match rest4 with
                  | d :: _ =>
                      if isDigitChar d then
                        some (e :: (esign ++ rest4.takeWhile isDigitChar), rest4.dropWhile isDigitChar)
                      else none
                  | [] => none
                else some ([], cs3)
            | [] => some ([], cs3)
          match expRes with
          | none => none
          | some (ep, cs5) => some (sign ++ intPart ++ fracPart ++ ep, cs5)

mutual
/-- One JSON value, by recursive descent with `fuel` bounding recursion
depth.  Returns the value and the unconsumed input. -/
def parseValue : Nat → List Char → Option (Json × List Char)
  | 0, _ => none
  | fuel + 1, cs =>
      match skipWs cs with
      | [] => none
      | c :: rest =>
          if c = '"' then
            (parseStringBody rest).map (fun p => (Json.jstr (String.mk p.1), p.2))
          else if c = lbrace then parseObjBody fuel rest JsonFields.nil true
          else if c = '[' then parseArrBody fuel rest JsonItems.nil true
          else if c = 'n' then
            match rest with
            | 'u' :: 'l' :: 'l' :: rest2 => some (Json.jnull, rest2)
            | _ => none
          else if c = 't' then
            match rest with
            | 'r' :: 'u' :: 'e' :: rest2 => some (Json.jbool true, rest2)
            | _ => none
          else if c = 'f' then
            match rest with
            | 'a' :: 'l' :: 's' :: 'e' :: rest2 => some (Json.jbool false, rest2)
            | _ => none
          else
            (parseNumberToken (c :: rest)).map
              (fun p => (Json.jnum (String.mk p.1), p.2))

/-- Parse the members of an object after `\x7b`, accumulating fields.
`first` is true before the first member. -/
def parseObjBody : Nat → List Char → JsonFields → Bool → Option (Json × List Char)
  | 0, _, _, _ => none
  | fuel + 1, cs, acc, first =>
      match skipWs cs with
      | [] => none
      | c :: rest =>
          if c = rbrace then some (Json.jobj acc, rest)
          else if first ∨ c = ',' then
            match (if first then c :: rest else skipWs rest) with
            | [] => none
            | k :: krest =>
                if k = '"' then
                  match parseStringBody krest with
                  | none => none
                  | some (keyChars, afterKey) =>
                      match skipWs afterKey with
                      | colon :: afterColon =>
                          if colon = ':' then
                            match parseValue fuel afterColon with
                            | none => none
                            | some (v, afterVal) =>
                                parseObjBody fuel afterVal
                                  (acc.setF (String.mk keyChars) v) false
                          else none
                      | [] => none
                else none
          else none

/-- Parse the elements of an array after `[`, accumulating items. -/
def parseArrBody : Nat → List Char → JsonItems → Bool → Option (Json × List Char)
  | 0, _, _, _ => none
  | fuel + 1, cs, acc, first =>
      match skipWs cs with
      | [] => none
      | c :: rest =>
          if c = ']' then some (Json.jarr acc, rest)
          else if first ∨ c = ',' then
            match parseValue fuel (if first then c :: rest else rest) with
            | none => none
            | some (v, afterVal) => parseArrBody fuel afterVal (acc.snoc v) false
          else none
end

/-- `JSON.parse(s)`: parse one value with enough fuel and require the
whole input (up to trailing whitespace) to be consumed; `none` models the
thrown `SyntaxError`, which `handleProxyRequest` turns into a 400. -/
def jsonParse (s : String) : Option Json :=
  match parseValue (2 * s.data.length + 2) s.data with
  | none => none
  | some (v, rest) => if skipWs rest = [] then some v else none

/-! ## URLs (`new URL` in Node)

A model of the WHATWG URL parser covering the fragment the proxy
exercises: scheme recognition, authority/host/port for special and
non-special schemes, path, and query-string splitting.  Out of modelled
scope (documented divergences, none reachable by the claims below):
percent-decoding and IDNA mapping of hosts, percent-encoding on
serialization, dot-segment path normalization, IPv6 hosts, and
`file:` special-scheme rules.  `none` models the thrown `TypeError`. -/

/-- A parsed URL object.  `protocol` keeps the trailing colon exactly as
the JavaScript `URL.protocol` getter does; `slashes` records whether the
URL has an authority component (serialization emits `//`). -/
structure JsURL where
  protocol : String
  slashes : Bool
  hostname : String
  port : Option Nat
  pathname : String
  query : List (String × String)
  deriving DecidableEq

/-- ASCII letter test. -/
def isAsciiAlpha (c : Char) : Bool :=
  ('a' ≤ c ∧ c ≤ 'z') ∨ ('A' ≤ c ∧ c ≤ 'Z')

/-- Characters allowed in a scheme after the first letter. -/
def isSchemeChar (c : Char) : Bool :=
  isAsciiAlpha c ∨ isDigitChar c ∨ c = '+' ∨ c = '-' ∨ c = '.'

/-- ASCII lowercasing of one character. -/
def asciiLower (c : Char) : Char :=
  if 'A' ≤ c ∧ c ≤ 'Z' then Char.ofNat (c.toNat + 32) else c

/-- ASCII lowercase of a character list. -/
def asciiLowerAll (cs : List Char) : List Char := cs.map asciiLower

/-- The special schemes the model knows, with their default ports. -/
def specialSchemes : List (String × Nat) :=
  [("http", 80), ("https", 443), ("ws", 80), ("wss", 443), ("ftp", 21)]

/-- Forbidden host code points (WHATWG), which make `new URL` throw. -/
def isForbiddenHostChar (c : Char) : Bool :=
  c.toNat ≤ 32 ∨ c = '#' ∨ c = '%' ∨ c = '/' ∨ c = ':' ∨ c = '?' ∨ c = '@' ∨
    c = '[' ∨ c = '\\' ∨ c = ']' ∨ c = '^' ∨ c = '|' ∨ c = '<' ∨ c = '>' ∨ c = '"'

/-- Digits to a natural number. -/
def digitsToNat (cs : List Char) : Nat :=
  cs.foldl (fun acc c => acc * 10 + (c.toNat - 48)) 0

/-- Split a character list on a separator character. -/
def splitOnChar (sep : Char) : List Char → List (List Char)
  | [] => [[]]
  | c :: rest =>
      if c = sep then [] :: splitOnChar sep rest
      else
        match splitOnChar sep rest with
        | [] => [[c]]
        | g :: gs => (c :: g) :: gs

/-- Split one `name=value` query piece at the first `=` (no `=` means an
empty value). -/
def queryPiece (cs : List Char) : String × String :=
  (String.mk (cs.takeWhile (fun c => c ≠ '=')),
   String.mk ((cs.dropWhile (fun c => c ≠ '=')).drop 1))

/-- Parse an `application/x-www-form-urlencoded` query (sans decoding)
into name/value pairs, skipping empty `&`-pieces as `URLSearchParams`
does. -/
def parseQueryPairs (cs : List Char) : List (String × String) :=
  ((splitOnChar '&' cs).filter (fun p => p ≠ [])).map queryPiece

/-- Parse host and optional port from an authority (userinfo already
stripped).  Fails on forbidden host characters, an empty host when
`requireHost`, a non-numeric port, or a port above 65535. -/
def parseHostPort (auth : List Char) (requireHost : Bool) (scheme : String) :
    Option (String × Option Nat) :=
  let hostChars := auth.takeWhile (fun c => c ≠ ':')
  let portChars := (auth.dropWhile (fun c => c ≠ ':')).drop 1
  if requireHost ∧ hostChars = [] then none
  else if hostChars.any isForbiddenHostChar then none
  else
    let host := String.mk (asciiLowerAll hostChars)
    if (auth.dropWhile (fun c => c ≠ ':')) = [] then some (host, none)
    else if portChars = [] then some (host, none)
    else if portChars.all isDigitChar then
      let p := digitsToNat portChars
      if p > 65535 then none
      else if (specialSchemes.lookup scheme).isSome ∧
              specialSchemes.lookup scheme = some p then some (host, none)
      else some (host, some p)
    else none

/-- Strip a userinfo component: everything up to the last `@` of the
authority is dropped, as in the WHATWG parser. -/
def stripUserinfo (auth : List Char) : List Char :=
  if auth.contains '@' then (auth.reverse.takeWhile (fun c => c ≠ '@')).reverse
  else auth

/-- Parse path, query and fragment terminators out of the remainder that
follows an authority. -/
def pathQueryOf (cs : List Char) (special : Bool) (emptyPathSlash : Bool) :
    String × List (String × String) :=
  let pathChars := cs.takeWhile (fun c => c ≠ '?' ∧ c ≠ '#')
  let afterPath := cs.dropWhile (fun c => c ≠ '?' ∧ c ≠ '#')
  let pathChars := if special then pathChars.map (fun c => if c = '\\' then '/' else c)
                   else pathChars
  let path := if pathChars = [] ∧ emptyPathSlash then "/" else String.mk pathChars
  let query :=
    match afterPath with
    | '?' :: qrest => parseQueryPairs (qrest.takeWhile (fun c => c ≠ '#'))
    | _ => []
  (path, query)

/-- The WHATWG input preprocessing of `new URL`: strip leading/trailing
C0-control-or-space characters, remove ASCII tab and newlines anywhere. -/
def urlPreprocess (s : String) : List Char :=
  (((s.data.dropWhile (fun c => c.toNat ≤ 32)).reverse.dropWhile
      (fun c => c.toNat ≤ 32)).reverse).filter
    (fun c => ¬ (c = '\t' ∨ c = '\n' ∨ c = Char.ofNat 13))

/-- The body of the URL parser over the preprocessed character list. -/
def parseURLChars (cs : List Char) : Option JsURL :=
  match cs with
  | [] => none
  | c0 :: _ =>
      if ¬ isAsciiAlpha c0 then none
      else
        let schemeChars := cs.takeWhile isSchemeChar
        let afterScheme := cs.dropWhile isSchemeChar
        match afterScheme with
        | ':' :: afterColon =>
            let scheme := String.mk (asciiLowerAll schemeChars)
            let protocol := scheme ++ ":"
            if (specialSchemes.lookup scheme).isSome then
              let afterSlashes := afterColon.dropWhile (fun c => c = '/' ∨ c = '\\')
              let auth := afterSlashes.takeWhile
                (fun c => c ≠ '/' ∧ c ≠ '\\' ∧ c ≠ '?' ∧ c ≠ '#')
              let afterAuth := afterSlashes.dropWhile
                (fun c => c ≠ '/' ∧ c ≠ '\\' ∧ c ≠ '?' ∧ c ≠ '#')
              match parseHostPort (stripUserinfo auth) true scheme with
              | none => none
              | some (host, port) =>
                  let (path, query) := pathQueryOf afterAuth true true
                  some ⟨protocol, true, host, port, path, query⟩
            else
              match afterColon with
              | '/' :: '/' :: afterSlashes =>
                  let auth := afterSlashes.takeWhile
                    (fun c => c ≠ '/' ∧ c ≠ '?' ∧ c ≠ '#')
                  let afterAuth := afterSlashes.dropWhile
                    (fun c => c ≠ '/' ∧ c ≠ '?' ∧ c ≠ '#')
                  match parseHostPort (stripUserinfo auth) false scheme with
                  | none => none
                  | some (host, port) =>
                      let (path, query) := pathQueryOf afterAuth false false
                      some ⟨protocol, true, host, port, path, query⟩
              | _ =>
                  let (path, query) := pathQueryOf afterColon false false
                  some ⟨protocol, false, "", none, path, query⟩
        | _ => none

/-- `new URL(input)` for an absolute URL string, modelling the WHATWG
basic URL parser as described above; `none` is the thrown `TypeError`. -/
def parseURL (s : String) : Option JsURL :=
  parseURLChars (urlPreprocess s)

/-- `&`-joined serialization of query pairs. -/
def joinPairs : List (String × String) → String
  | [] => ""
  | [p] => p.1 ++ "=" ++ p.2
  | p :: q :: tl => p.1 ++ "=" ++ p.2 ++ "&" ++ joinPairs (q :: tl)

/-- The serialized query, `?`-prefixed when nonempty: `URL.search`. -/
def searchOf (q : List (String × String)) : String :=
  match q with
  | [] => ""
  | _ => "?" ++ joinPairs q

/-- `URL.toString()` (sans percent-encoding, see the model notes). -/
def serializeURL (u : JsURL) : String :=
  u.protocol ++ (if u.slashes then "//" else "") ++ u.hostname ++
    (match u.port with
     | some p => ":" ++ toString p
     | none => "") ++
    u.pathname ++ searchOf u.query

/-- The origin string the proxy code computes in `loadTOMLConfig`
(`server.js:109`) and `isEndpointAllowed` (`server.js:160`):
`protocol + '//' + hostname`. -/
def jsOrigin (u : JsURL) : String := u.protocol ++ "//" ++ u.hostname

/-- `URLSearchParams.set(name, value)`: overwrite the first entry with
that name and drop the rest, or append when absent. -/
def searchParamsSet (q : List (String × String)) (name value : String) :
    List (String × String) :=
  if q.any (fun p => p.1 = name) then
    searchParamsSetGo q name value
  else q ++ [(name, value)]
where
  searchParamsSetGo : List (String × String) → String → String → List (String × String)
    | [], _, _ => []
    | (k, v) :: tl, name, value =>
        if k = name then (k, value) :: tl.filter (fun p => p.1 ≠ name)
        else (k, v) :: searchParamsSetGo tl name value

/-! ## Small string helpers

Character-list implementations of the string operations the JavaScript
source uses (`trim`, single-character `startsWith`/`endsWith`, prefix
tests, ASCII case mapping), kept elementary so that proofs can reason
about them and the kernel can evaluate them. -/

/-- The whitespace class of JavaScript `String.prototype.trim` (ASCII
part; exotic Unicode spaces are out of modelled scope). -/
def jsWsChar (c : Char) : Bool :=
  c = ' ' ∨ c = '\t' ∨ c = '\n' ∨ c = Char.ofNat 13 ∨
    c = Char.ofNat 11 ∨ c = Char.ofNat 12

/-- JavaScript `s.trim()`. -/
def jsTrim (s : String) : String :=
  String.mk (((s.data.dropWhile jsWsChar).reverse.dropWhile jsWsChar).reverse)

/-- `s.startsWith(c)` for a single-character prefix. -/
def headIs (s : String) (c : Char) : Bool := s.data.head? = some c

/-- `s.endsWith(c)` for a single-character suffix. -/
def lastIs (s : String) (c : Char) : Bool := s.data.getLast? = some c

/-- `s.slice(1, -1)`: drop the first and last character. -/
def sliceEnds (s : String) : String := String.mk ((s.data.drop 1).dropLast)

/-- List prefix test. -/
def startsWithChars : List Char → List Char → Bool
  | [], _ => true
  | _ :: _, [] => false
  | a :: as, b :: bs => a = b && startsWithChars as bs

/-- JavaScript `url.startsWith(p)`. -/
def jsStartsWith (s p : String) : Bool := startsWithChars p.data s.data

/-- ASCII uppercase of one character (`toUpperCase` restricted to the
ASCII range the HTTP methods live in). -/
def jsUpperChar (c : Char) : Char :=
  if 'a' ≤ c ∧ c ≤ 'z' then Char.ofNat (c.toNat - 32) else c

/-- JavaScript `s.toUpperCase()` (ASCII). -/
def jsToUpper (s : String) : String := String.mk (s.data.map jsUpperChar)

/-! ## JavaScript numeric-string semantics

`parseTOML` coerces a bare value with `!isNaN(value)` and `Number(value)`
(`server.js:78-79`), and several truthiness tests depend on whether a
stored number is zero.  `jsIsNumericString` implements the ECMAScript
`StringNumericLiteral` grammar (`ToNumber` applied to a string does not
yield `NaN` exactly when the string matches it), and `jsNumIsZero`
decides whether such a token denotes the number 0. -/

/-- Hex digit test. -/
def isHexChar (c : Char) : Bool :=
  isDigitChar c ∨ ('a' ≤ c ∧ c ≤ 'f') ∨ ('A' ≤ c ∧ c ≤ 'F')

/-- Octal digit test. -/
def isOctalChar (c : Char) : Bool := '0' ≤ c ∧ c ≤ '7'

/-- Binary digit test. -/
def isBinaryChar (c : Char) : Bool := c = '0' ∨ c = '1'

/-- An optional sign followed by at least one digit (the exponent tail
of a decimal literal). -/
def jsSignedDigits : List Char → Bool
  | [] => false
  | s :: rr =>
      if s = '+' ∨ s = '-' then !rr.isEmpty && rr.all isDigitChar
      else (s :: rr).all isDigitChar

/-- Exponent suffix of a decimal literal: empty, or `e`/`E`, an optional
sign, and at least one digit. -/
def jsExponentOk : List Char → Bool
  | [] => true
  | e :: r => (e == 'e' || e == 'E') && jsSignedDigits r

/-- Unsigned part of a `StrDecimalLiteral`: `Infinity`, digits with an
optional fraction, or a fraction alone, with an optional exponent. -/
def jsUnsignedDecimal (cs : List Char) : Bool :=
  cs == "Infinity".data ||
    (let ip := cs.takeWhile isDigitChar
     let rest := cs.dropWhile isDigitChar
     match rest with
     | [] => !ip.isEmpty
     | d :: r2 =>
         if d = '.' then
           let fp := r2.takeWhile isDigitChar
           let r3 := r2.dropWhile isDigitChar
           (!ip.isEmpty || !fp.isEmpty) && jsExponentOk r3
         else !ip.isEmpty && jsExponentOk rest)

/-- Signed `StrDecimalLiteral`. -/
def jsDecimalLiteral : List Char → Bool
  | [] => jsUnsignedDecimal []
  | c :: r =>
      if c = '+' ∨ c = '-' then jsUnsignedDecimal r
      else jsUnsignedDecimal (c :: r)

/-- Does JavaScript `ToNumber` of this string yield a number (so
`!isNaN(value)` holds)?  The empty (or all-whitespace) string converts to
`0`, radix-prefixed literals take no sign. -/
def jsIsNumericString (s : String) : Bool :=
  match (jsTrim s).data with
  | [] => true
  | '0' :: x :: rest =>
      if x = 'x' ∨ x = 'X' then rest ≠ [] ∧ rest.all isHexChar
      else if x = 'o' ∨ x = 'O' then rest ≠ [] ∧ rest.all isOctalChar
      else if x = 'b' ∨ x = 'B' then rest ≠ [] ∧ rest.all isBinaryChar
      else jsDecimalLiteral ('0' :: x :: rest)
  | cs => jsDecimalLiteral cs

/-- Is the number denoted by a numeric token zero (for truthiness)?  Only
meaningful on tokens accepted by `jsIsNumericString`. -/
def jsNumIsZero (s : String) : Bool :=
  match (jsTrim s).data with
  | [] => true
  | '0' :: x :: rest =>
      if x = 'x' ∨ x = 'X' ∨ x = 'o' ∨ x = 'O' ∨ x = 'b' ∨ x = 'B' then
        rest.all (fun c => c = '0')
      else decimalMantissaZero ('0' :: x :: rest)
  | cs => decimalMantissaZero cs
where
  decimalMantissaZero (cs : List Char) : Bool :=
    let cs1 := match cs with
               | c :: r => if c = '+' ∨ c = '-' then r else cs
               | [] => cs
    if cs1 = "Infinity".data then false
    else
      let ip := cs1.takeWhile isDigitChar
      let rest := cs1.dropWhile isDigitChar
      let fp := match rest with
                | d :: r2 => if d = '.' then r2.takeWhile isDigitChar else []
                | [] => []
      ip.all (fun c => c = '0') ∧ fp.all (fun c => c = '0')

/-! ## TOML configuration model (`parseTOML`, `loadTOMLConfig`)

The hand-rolled line-based parser of `server.js:39-86` and the config
loader of `server.js:88-130`.  A parsed config is a nested string-keyed
table whose leaves are the coerced scalar values.  `Except Unit` models
the strict-mode `TypeError` thrown when a section path or assignment
walks into a truthy primitive (string index properties of primitives are
not modelled). -/

inductive TomlValue where
  | vstr (s : String) : TomlValue
  | vbool (b : Bool) : TomlValue
  | vnum (token : String) : TomlValue
  deriving DecidableEq

mutual
inductive TomlItem where
  | val (v : TomlValue) : TomlItem
  | table (t : TomlTable) : TomlItem
  deriving DecidableEq

inductive TomlTable where
  | nil : TomlTable
  | cons (key : String) (item : TomlItem) (tl : TomlTable) : TomlTable
  deriving DecidableEq
end

/-- Equality of `Except` results is decidable componentwise. -/
instance {ε α : Type} [DecidableEq ε] [DecidableEq α] : DecidableEq (Except ε α) :=
  fun a b =>
  match a, b with
  | .error e1, .error e2 =>
      if h : e1 = e2 then isTrue (by rw [h])
      else isFalse (fun hc => by cases hc; exact h rfl)
  | .ok a1, .ok a2 =>
      if h : a1 = a2 then isTrue (by rw [h])
      else isFalse (fun hc => by cases hc; exact h rfl)
  | .error _, .ok _ => isFalse (fun hc => by cases hc)
  | .ok _, .error _ => isFalse (fun hc => by cases hc)

mutual
/-- Well-formedness of stored scalars: every numeric leaf carries a
token accepted by `jsIsNumericString` — an invariant of everything
`parseTOML` produces, since only `coerceValue` creates numbers. -/
def TomlItem.numOk : TomlItem → Bool
  | .val (.vnum t) => jsIsNumericString t
  | .val _ => true
  | .table t => t.numOk

/-- Table-wide well-formedness of stored numeric scalars. -/
def TomlTable.numOk : TomlTable → Bool
  | .nil => true
  | .cons _ it tl => it.numOk && tl.numOk
end

/-- Property lookup in a config table. -/
def TomlTable.getT : TomlTable → String → Option TomlItem
  | .nil, _ => none
  | .cons k it tl, key => if k = key then some it else tl.getT key

/-- Property assignment in a config table (overwrite in place or append,
JavaScript object semantics). -/
def TomlTable.setT : TomlTable → String → TomlItem → TomlTable
  | .nil, key, it => .cons key it .nil
  | .cons k it0 tl, key, it =>
      if k = key then .cons k it tl else .cons k it0 (tl.setT key it)

/-- The entries of a table, in property order. -/
def TomlTable.toList : TomlTable → List (String × TomlItem)
  | .nil => []
  | .cons k it tl => (k, it) :: tl.toList

/-- Property lookup through a `TomlItem` (`undefined` on scalars: index
properties of primitive strings are not modelled). -/
def TomlItem.getProp : TomlItem → String → Option TomlItem
  | .table t, key => t.getT key
  | .val _, _ => none

/-- JavaScript truthiness of a stored scalar. -/
def tomlTruthy : TomlValue → Bool
  | .vstr s => s ≠ ""
  | .vbool b => b
  | .vnum t => ¬ jsNumIsZero t

/-- JavaScript truthiness of a possibly-absent config entry (tables are
always truthy, `undefined` is falsy). -/
def itemTruthy : Option TomlItem → Bool
  | none => false
  | some (.table _) => true
  | some (.val v) => tomlTruthy v

/-- JavaScript `String(…)` of a stored scalar.  For a numeric token the
model re-emits the token rather than re-rendering the number; no numeric
token contains a `:`, so the only observer (`new URL`) fails on it either
way. -/
def tomlValToString : TomlValue → String
  | .vstr s => s
  | .vbool b => if b then "true" else "false"
  | .vnum t => t

/-- JavaScript string coercion of a possibly-absent config entry, as a
template literal or `String(…)` performs it. -/
def itemToString : Option TomlItem → String
  | none => "undefined"
  | some (.table _) => "[object Object]"
  | some (.val v) => tomlValToString v

/-- Value coercion of `parseTOML` (`server.js:72-80`): strip surrounding
double quotes, recognize bare `true`/`false`, convert strings that are
numeric under JavaScript `ToNumber` (the `!isNaN(value)` test), and keep
everything else as a literal string. -/
def coerceValue (value : String) : TomlValue :=
  if headIs value '"' ∧ lastIs value '"' then .vstr (sliceEnds value)
  else if value = "true" then .vbool true
  else if value = "false" then .vbool false
  else if jsIsNumericString value then .vnum value
  else .vstr value

/-- Walk (and create) a section path from the root, as the header branch
of `parseTOML` does (`server.js:50-63`): descend into existing tables,
replace falsy scalars with fresh tables, and on a truthy scalar either
leave the cursor on the primitive (`.ok (…, false)`, a poisoned section)
when it is the final part, or fail like the strict-mode `TypeError` from
assigning a property of a primitive when parts remain. -/
def ensurePath : TomlTable → List String → Except Unit (TomlTable × Bool)
  | t, [] => .ok (t, true)
  | t, part :: rest =>
      match t.getT part with
      | some (.table sub) =>
          match ensurePath sub rest with
          | .error _ => .error ()
          | .ok (sub2, live) => .ok (t.setT part (.table sub2), live)
      | some (.val v) =>
          if tomlTruthy v then
            match rest with
            | [] => .ok (t, false)
            | _ :: _ => .error ()
          else
            match ensurePath TomlTable.nil rest with
            | .error _ => .error ()
            | .ok (sub2, live) => .ok (t.setT part (.table sub2), live)
      | none =>
          match ensurePath TomlTable.nil rest with
          | .error _ => .error ()
          | .ok (sub2, live) => .ok (t.setT part (.table sub2), live)

/-- Assign `key = value` in the table at `path` (the path exists and is
all tables after a successful `ensurePath`). -/
def setAtPath : TomlTable → List String → String → TomlValue → TomlTable
  | t, [], key, v => t.setT key (.val v)
  | t, part :: rest, key, v =>
      match t.getT part with
      | some (.table sub) => t.setT part (.table (setAtPath sub rest key v))
      | _ => t

/-- Parser state: the table built so far and the current section path
(`none` when the cursor sits on a truthy primitive, where any further
assignment throws). -/
structure TomlParseState where
  tree : TomlTable
  cur : Option (List String)

/-- Process one (raw) line of the config file: trim, skip blanks and
`#` comments, open a section on `[…]` headers, and otherwise treat the
first `=` as a key/value split, skipping lines without `=`
(`server.js:45-83`). -/
def processTOMLLine (st : TomlParseState) (rawLine : String) :
    Except Unit TomlParseState :=
  let line := jsTrim rawLine
  if line = "" ∨ headIs line '#' then .ok st
  else if headIs line '[' ∧ lastIs line ']' then
    let sectionName := sliceEnds line
    let parts := (splitOnChar '.' sectionName.data).map String.mk
    match ensurePath st.tree parts with
    | .error _ => .error ()
    | .ok (t2, live) => .ok ⟨t2, if live then some parts else none⟩
  else if line.data.contains '=' then
    let key := jsTrim (String.mk (line.data.takeWhile (fun c => c ≠ '=')))
    let value := jsTrim (String.mk ((line.data.dropWhile (fun c => c ≠ '=')).drop 1))
    match st.cur with
    | none => .error ()
    | some path => .ok ⟨setAtPath st.tree path key (coerceValue value), st.cur⟩
  else .ok st

/-- `parseTOML(content)` (`server.js:39-86`): split on newlines and fold
the line processor from an empty root with the cursor at the root. -/
def parseTOML (content : String) : Except Unit TomlTable :=
  match go ((splitOnChar '\n' content.data).map String.mk) ⟨TomlTable.nil, some []⟩ with
  | .error _ => .error ()
  | .ok st => .ok st.tree
where
  go : List String → TomlParseState → Except Unit TomlParseState
    | [], st => .ok st
    | l :: ls, st =>
        match processTOMLLine st l with
        | .error _ => .error ()
        | .ok st2 => go ls st2

/-- `Object.entries(config.apis)` under the truthy guard of
`server.js:103`: table entries in property order; a primitive string
enumerates its index properties (one single-character string per index),
any other primitive has none. -/
def entriesOfApis : Option TomlItem → List (String × TomlItem)
  | some (.table t) => t.toList
  | some (.val (.vstr s)) =>
      (List.range s.data.length).zip
        (s.data.map (fun c => TomlItem.val (.vstr (String.mk [c])))) |>.map
          (fun p => (toString p.1, p.2))
  | _ => []

/-- JavaScript `Set.add` on an insertion-ordered list model. -/
def setAdd (l : List String) (x : String) : List String :=
  if l.contains x then l else l ++ [x]

/-- The allow-list pass of `loadTOMLConfig` (`server.js:103-119`): for
each profile whose `endpoint` is truthy and parses under `new URL`, add
`protocol + '//' + hostname`; profiles that fail either test are skipped
(warned about) and contribute nothing. -/
def originsOfApis (entries : List (String × TomlItem)) (start : List String) :
    List String :=
  entries.foldl
    (fun acc e =>
      let ep := e.2.getProp "endpoint"
      if itemTruthy ep then
        match parseURL (itemToString ep) with
        | some u => setAdd acc (jsOrigin u)
        | none => acc
      else acc)
    start

/-- `loadTOMLConfig` (`server.js:88-130`) as a state transition: the
previous allow-list is cleared up front (`server.js:89-90`), a missing
file or a parse failure exits the process (`none`), and otherwise the
new config and the wholly recomputed allow-list replace the old state. -/
def loadTOMLConfig (prevAllowed : List String) (content : Option String) :
    Option (TomlTable × List String) :=
  let cleared : List String := []
  match content with
  | none => none
  | some c =>
      match parseTOML c with
      | .error _ => none
      | .ok cfg =>
          let apis := cfg.getT "apis"
          let allowed :=
            if itemTruthy apis then originsOfApis (entriesOfApis apis) cleared
            else cleared
          some (cfg, allowed)

/-! ## The request pipeline (`handleProxyRequest` and its helpers)

The inbound side of `server.js:142-382`.  A request is the raw body
string plus the (lower-cased by Node) `x-htmz-signature` header, `none`
when absent.  The process-wide state is the HMAC secret, the allow-list
and the parsed config.  The outcome records the response status and the
`success`/`error`/`type` fields of the JSON body, the outbound requests
dispatched upstream (the success-path response envelope depends on the
upstream answer and is not modelled further), and — for auditing the
order of checks — whether the HMAC was ever computed. -/

/-- The mutable process-wide state of the proxy. -/
structure ProxyState where
  hmacSecret : String
  allowedEndpoints : List String
  config : TomlTable

mutual
/-- JavaScript `String(v)` coercion of a parsed JSON value, needed for
`new URL(url)` when the declared `url` is not a string: arrays join their
elements with commas (`null` rendering as empty), objects render as
`[object Object]`. -/
def jsToStringJson : Json → String
  | .jnull => "null"
  | .jbool b => if b then "true" else "false"
  | .jnum t => t
  | .jstr s => s
  | .jarr xs => jsArrayJoin xs
  | .jobj _ => "[object Object]"

/-- `Array.prototype.join(',')` under `String(…)` coercion: elements are
comma-separated, with `null` (and `undefined`) rendering empty. -/
def jsArrayJoin : JsonItems → String
  | .nil => ""
  | .cons .jnull .nil => ""
  | .cons x .nil => jsToStringJson x
  | .cons .jnull (.cons y tl) => "," ++ jsArrayJoin (.cons y tl)
  | .cons x (.cons y tl) => jsToStringJson x ++ "," ++ jsArrayJoin (.cons y tl)
end

/-- String coercion of a descriptor field that may be `undefined`. -/
def jsValToString : Option Json → String
  | none => "undefined"
  | some j => jsToStringJson j

/-- Property read on the parsed request body (`undefined` on non-objects;
the descriptor keys used here are never array indices, so index
properties of strings/arrays never apply). -/
def Json.getField : Json → String → Option Json
  | .jobj fs, k => fs.getF k
  | _, _ => none

/-- JavaScript truthiness of a descriptor field. -/
def jsTruthy : Option Json → Bool
  | none => false
  | some .jnull => false
  | some (.jbool b) => b
  | some (.jstr s) => s ≠ ""
  | some (.jnum t) => ¬ jsNumIsZero t
  | some (.jarr _) => true
  | some (.jobj _) => true

/-- `verifyHMAC(payload, signature)` (`server.js:142-155`): recompute
`HMAC-SHA256(secret, JSON.stringify(payload))` in hex, hex-decode both
sides (Node's lenient `Buffer.from(…, 'hex')`), and compare with
`crypto.timingSafeEqual`, whose length-mismatch exception is caught and
turned into `false`. -/
def verifyHMAC (hmacSecret : String) (payload : Json) (signature : String) : Bool :=
  let expectedSignature :=
    bytesToHex (hmacSha256 (utf8Bytes hmacSecret) (utf8Bytes (jsonStringify payload)))
  let sigBuf := nodeHexDecode signature
  let expBuf := nodeHexDecode expectedSignature
  if sigBuf.length = expBuf.length then decide (sigBuf = expBuf) else false

/-- `isEndpointAllowed(url)` (`server.js:157-165`): parse the (coerced)
URL, compute `protocol + '//' + hostname`, and test allow-list
membership; any parse failure is caught and means not allowed. -/
def isEndpointAllowed (allowedEndpoints : List String) (url : Option Json) : Bool :=
  match parseURL (jsValToString url) with
  | some u => allowedEndpoints.contains (jsOrigin u)
  | none => false

/-- `getApiConfig(url)` (`server.js:167-176`): `null` when `config.apis`
is falsy, else the first profile whose `endpoint` (string-coerced,
`undefined` when absent) is a prefix of `url`.  When the iteration runs
at least once on a non-string `url`, `url.startsWith` throws
(`Except.error`), which the handler converts to a 400. -/
def getApiConfig (config : TomlTable) (url : Option Json) :
    Except Unit (Option (String × TomlItem)) :=
  let apis := config.getT "apis"
  if itemTruthy apis then go (entriesOfApis apis) url
  else .ok none
where
  go : List (String × TomlItem) → Option Json → Except Unit (Option (String × TomlItem))
    | [], _ => .ok none
    | (nm, item) :: rest, url =>
        match url with
        | some (.jstr u) =>
            if jsStartsWith u (itemToString (item.getProp "endpoint")) then
              .ok (some (nm, item))
            else go rest url
        | _ => .error ()

/-- A stored config scalar as the JavaScript value assigned into a
headers object (`api_header` assigns the raw config value). -/
def tomlValToJson : TomlValue → Json
  | .vstr s => .jstr s
  | .vbool b => .jbool b
  | .vnum t => .jnum t

mutual
/-- A config item as a JavaScript value (tables become plain objects). -/
def tomlItemToJson : TomlItem → Json
  | .val v => tomlValToJson v
  | .table t => .jobj (tomlTableToJson t)

/-- A config table as JSON object fields, in property order. -/
def tomlTableToJson : TomlTable → JsonFields
  | .nil => .nil
  | .cons k it tl => .cons k (tomlItemToJson it) (tomlTableToJson tl)
end

/-- The raw config value assigned by the `api_header` arm, `undefined`
being impossible there (the arm is guarded by truthiness). -/
def itemToJson : Option TomlItem → Json
  | none => .jnull
  | some it => tomlItemToJson it

/-- `addAuthenticationHeaders(options, apiConfig)` (`server.js:178-203`),
restricted to its effect on `options.headers`: no profile, a falsy
`auth_type`, `auth_type === 'none'`, or an unknown scheme leave the
headers unchanged; `bearer`/`api_header`/`basic` set their header when
their credential fields are truthy. -/
def addAuthenticationHeaders (headers : JsonFields) (apiConfig : Option TomlItem) :
    JsonFields :=
  match apiConfig with
  | none => headers
  | some cfg =>
      let authType := cfg.getProp "auth_type"
      if ¬ itemTruthy authType ∨ authType = some (.val (.vstr "none")) then headers
      else if authType = some (.val (.vstr "bearer")) then
        let token := cfg.getProp "token"
        if itemTruthy token then
          headers.setF "Authorization" (.jstr ("Bearer " ++ itemToString token))
        else headers
      else if authType = some (.val (.vstr "api_header")) then
        let headerName := cfg.getProp "header_name"
        let key := cfg.getProp "key"
        if itemTruthy headerName ∧ itemTruthy key then
          headers.setF (itemToString headerName) (itemToJson key)
        else headers
      else if authType = some (.val (.vstr "basic")) then
        let username := cfg.getProp "username"
        let password := cfg.getProp "password"
        if itemTruthy username ∧ itemTruthy password then
          headers.setF "Authorization"
            (.jstr ("Basic " ++
              base64Encode (utf8Bytes (itemToString username ++ ":" ++ itemToString password))))
        else headers
      else headers

/-- `processUrlWithAuth(url, apiConfig)` (`server.js:205-217`): for an
`api_key` profile with truthy `key_param` and `key`, re-parse the URL,
`searchParams.set` the credential and serialize; otherwise pass the URL
through (the caller string-coerces it at `new URL`, so the pass-through
is modelled as the coerced string).  `Except.error` is the `new URL`
throw, caught by the handler as a 400. -/
def processUrlWithAuth (url : Option Json) (apiConfig : Option TomlItem) :
    Except Unit String :=
  match apiConfig with
  | none => .ok (jsValToString url)
  | some cfg =>
      let authType := cfg.getProp "auth_type"
      if ¬ itemTruthy authType ∨ authType = some (.val (.vstr "none")) then
        .ok (jsValToString url)
      else if authType = some (.val (.vstr "api_key")) ∧
              itemTruthy (cfg.getProp "key_param") ∧ itemTruthy (cfg.getProp "key") then
        match parseURL (jsValToString url) with
        | none => .error ()
        | some u =>
            let q2 := searchParamsSet u.query
              (itemToString (cfg.getProp "key_param"))
              (itemToString (cfg.getProp "key"))
            .ok (serializeURL { u with query := q2 })
      else .ok (jsValToString url)

/-- One outbound upstream request as the Forwarder dispatches it
(`server.js:263-370`): the `options` object of `requestModule.request`
plus the written body. -/
structure OutboundRequest where
  hostname : String
  port : Nat
  path : String
  method : String
  headers : JsonFields
  reqBody : Option String
  secure : Bool
  deriving DecidableEq

/-- The observable outcome of one inbound proxy request: response status
and JSON-body `success`/`error`/`type` fields (`errorMsg`/`errorType`
model the `error` and `type` properties, empty on the modelled success
path), the outbound calls made, and whether `verifyHMAC` ever ran. -/
structure HandlerResult where
  status : Nat
  success : Bool
  errorMsg : String
  errorType : String
  outbound : List OutboundRequest
  hmacComputed : Bool
  deriving DecidableEq

/-- The 400 `REQUEST_ERROR` response of the handler's catch-all
(`server.js:372-380`); the actual `error` string also carries the thrown
message, which the model does not reproduce. -/
def requestErrorResult (hmacComputed : Bool) : HandlerResult :=
  ⟨400, false, "Invalid request", "REQUEST_ERROR", [], hmacComputed⟩

/-- The 403 `AUTHENTICATION_ERROR` response (`server.js:236-241`). -/
def authErrorResult (hmacComputed : Bool) : HandlerResult :=
  ⟨403, false, "Invalid HMAC signature", "AUTHENTICATION_ERROR", [], hmacComputed⟩

/-- The 403 `ENDPOINT_NOT_ALLOWED` response (`server.js:249-254`). -/
def endpointErrorResult : HandlerResult :=
  ⟨403, false, "Endpoint not allowed", "ENDPOINT_NOT_ALLOWED", [], true⟩

/-- Truthiness of the presented signature header (`!signature` at
`server.js:234`): absent or empty is falsy. -/
def sigTruthy : Option String → Bool
  | none => false
  | some s => s ≠ ""

/-- Spreading the descriptor's `headers` value into the base headers
object (`…headers` at `server.js:275`): objects contribute their fields,
strings and arrays their index properties, everything else nothing. -/
def spreadFields : Option Json → List (String × Json)
  | some (.jobj fs) => fieldsToList fs
  | some (.jstr s) =>
      (List.range s.data.length).zip (s.data.map (fun c => Json.jstr (String.mk [c])))
        |>.map (fun p => (toString p.1, p.2))
  | some (.jarr xs) =>
      (List.range (itemsToList xs).length).zip (itemsToList xs)
        |>.map (fun p => (toString p.1, p.2))
  | _ => []
where
  fieldsToList : JsonFields → List (String × Json)
    | .nil => []
    | .cons k v tl => (k, v) :: fieldsToList tl
  itemsToList : JsonItems → List Json
    | .nil => []
    | .cons x tl => x :: itemsToList tl

/-- The base headers of every outbound call (`server.js:272-276`). -/
def baseHeaders : JsonFields :=
  .cons "User-Agent" (.jstr "htmz-proxy/3.0.0")
    (.cons "Accept" (.jstr "application/json") .nil)

/-- The outbound `options` object plus written body that the success
path hands to `requestModule.request` (`server.js:263-370`), given the
matched profile, the re-parsed processed URL, and the declared method. -/
def buildOutbound (requestData : Json) (apiInfo : Option (String × TomlItem))
    (urlObj : JsURL) (m : String) : OutboundRequest :=
  let headersV :=
    match requestData.getField "headers" with
    | none => some (Json.jobj .nil)
    | some v => some v
  let requestBody := requestData.getField "body"
  let methodUc := jsToUpper m
  let isHttps := urlObj.protocol = "https:"
  let hdrs :=
    addAuthenticationHeaders
      ((spreadFields headersV).foldl (fun h p => h.setF p.1 p.2) baseHeaders)
      (apiInfo.map Prod.snd)
  let writeBody :=
    jsTruthy requestBody ∧
      (methodUc = "POST" ∨ methodUc = "PUT" ∨ methodUc = "PATCH")
  { hostname := urlObj.hostname
    port := urlObj.port.getD (if isHttps then 443 else 80)
    path := urlObj.pathname ++ searchOf urlObj.query
    method := methodUc
    headers := hdrs
    reqBody :=
      if writeBody then
        some (match requestBody with
              | some (.jstr sb) => sb
              | some v => jsonStringify v
              | none => "undefined")
      else none
    secure := isHttps }

/-- The stage of `handleProxyRequest` after a verified signature
(`server.js:245-370`): destructure the descriptor (throwing on `null`),
gate on the allow-list, match a profile, apply URL credential injection,
and dispatch the built outbound request.  The success response is
modelled as the 200 envelope; upstream transport failures (502) are
outside the modelled boundary — the outbound request itself is the
observable. -/
def forwardStage (st : ProxyState) (requestData : Json) : HandlerResult :=
  if requestData = Json.jnull then requestErrorResult true
  else if ¬ isEndpointAllowed st.allowedEndpoints (requestData.getField "url") then
    endpointErrorResult
  else
    match getApiConfig st.config (requestData.getField "url") with
    | .error _ => requestErrorResult true
    | .ok apiInfo =>
        match processUrlWithAuth (requestData.getField "url") (apiInfo.map Prod.snd) with
        | .error _ => requestErrorResult true
        | .ok processedUrl =>
            match parseURL processedUrl with
            | none => requestErrorResult true
            | some urlObj =>
                match requestData.getField "method" with
                | some (.jstr m) =>
                    ⟨200, true, "", "", [buildOutbound requestData apiInfo urlObj m], true⟩
                | _ => requestErrorResult true

/-- `handleProxyRequest` (`server.js:219-382`) as a function of the
process state, the accumulated body string, and the
`x-htmz-signature` header: parse the body (400 on failure), fail closed
on an absent/empty/unverifiable signature (403), then run the forwarding
stage. -/
def handleProxyRequest (st : ProxyState) (body : String) (signature : Option String) :
    HandlerResult :=
  match jsonParse body with
  | none => requestErrorResult false
  | some requestData =>
      if sigTruthy signature then
        if verifyHMAC st.hmacSecret requestData (signature.getD "") then
          forwardStage st requestData
        else authErrorResult true
      else authErrorResult false

/-! ## Concrete instances used by witnesses and counterexamples -/

/-- A tiny descriptor in the client's field order
(`url`, `method`, `headers`, `body`). -/
def c3desc1 : Json :=
  .jobj (.cons "url" (.jstr "https://a.b/c")
    (.cons "method" (.jstr "GET")
      (.cons "headers" (.jobj .nil)
        (.cons "body" .jnull .nil))))

/-- The same logical descriptor with `method` textually first. -/
def c3desc2 : Json :=
  .jobj (.cons "method" (.jstr "GET")
    (.cons "url" (.jstr "https://a.b/c")
      (.cons "headers" (.jobj .nil)
        (.cons "body" .jnull .nil))))

/-- The wire body serializing `c3desc1`. -/
def c3body1 : String := jsonStringify c3desc1

/-- The wire body serializing `c3desc2`. -/
def c3body2 : String := jsonStringify c3desc2

/-- A signature valid for `c3body1` under the secret `"k"`. -/
def c3sig : String :=
  bytesToHex (hmacSha256 (utf8Bytes "k") (utf8Bytes c3body1))

/-- A state allowing the origin the `c3` descriptors declare, with the
secret `"k"` and an empty config (no profiles). -/
def c1State : ProxyState := ⟨"k", ["https://a.b"], .nil⟩

/-- A signature over `c3body2` itself — the method-first serialization —
under the secret `"k"`. -/
def c1sig : String :=
  bytesToHex (hmacSha256 (utf8Bytes "k") (utf8Bytes c3body2))

/-- The correct hex signature of the body `"[]"` under the secret `"k"`,
with non-hexadecimal junk appended. -/
def c10sig : String :=
  bytesToHex (hmacSha256 (utf8Bytes "k") (utf8Bytes "[]")) ++ "zz"

/-- A state whose allow-list holds one origin, with secret `"k"`. -/
def c2State : ProxyState := ⟨"k", ["https://ok.example"], .nil⟩

/-- A descriptor declaring a URL whose origin is not allow-listed. -/
def c2desc : Json :=
  .jobj (.cons "url" (.jstr "https://evil.example/x")
    (.cons "method" (.jstr "GET") .nil))

/-- The wire body of `c2desc`. -/
def c2body : String := jsonStringify c2desc

/-- A signature valid for `c2body` under the secret `"k"`. -/
def c2sig : String :=
  bytesToHex (hmacSha256 (utf8Bytes "k") (utf8Bytes c2body))

/-- The parse of the disallowed URL named in `c2desc`. -/
def c2url : JsURL := ⟨"https:", true, "evil.example", none, "/x", []⟩

/-- A bearer profile whose configured token is the empty string. -/
def c6cfg : TomlItem :=
  .table (.cons "endpoint" (.val (.vstr "https://a.b"))
    (.cons "auth_type" (.val (.vstr "bearer"))
      (.cons "token" (.val (.vstr "")) .nil)))

/-- Proxy state whose single profile is the empty-token bearer profile. -/
def c6State : ProxyState :=
  ⟨"k", ["https://a.b"], .cons "apis" (.table (.cons "g" c6cfg .nil)) .nil⟩

/-- A descriptor targeting the bearer profile's endpoint. -/
def c6desc : Json :=
  .jobj (.cons "url" (.jstr "https://a.b/u") (.cons "method" (.jstr "GET") .nil))

/-- The wire body of `c6desc`. -/
def c6body : String := jsonStringify c6desc

/-- A signature valid for `c6body` under the secret `"k"`. -/
def c6sig : String :=
  bytesToHex (hmacSha256 (utf8Bytes "k") (utf8Bytes c6body))

/-- A bearer profile with the nonempty token `"t"`. -/
def c6wCfg : TomlItem :=
  .table (.cons "endpoint" (.val (.vstr "https://a.b"))
    (.cons "auth_type" (.val (.vstr "bearer"))
      (.cons "token" (.val (.vstr "t")) .nil)))

/-- Proxy state whose single profile is the `"t"`-token bearer profile. -/
def c6wState : ProxyState :=
  ⟨"k", ["https://a.b"], .cons "apis" (.table (.cons "g" c6wCfg .nil)) .nil⟩

/-- The outbound request the success path dispatches for `c6desc` under
the `"t"`-token profile. -/
def c6wOut : OutboundRequest :=
  buildOutbound c6desc (some ("g", c6wCfg)) ⟨"https:", true, "a.b", none, "/u", []⟩ "GET"

/-- An `api_key` profile whose configured key is the empty string. -/
def c7cfg : TomlItem :=
  .table (.cons "auth_type" (.val (.vstr "api_key"))
    (.cons "key_param" (.val (.vstr "k"))
      (.cons "key" (.val (.vstr "")) .nil)))

/-- An `api_key` profile with key parameter `k` and key `v2`. -/
def c7wCfg : TomlItem :=
  .table (.cons "auth_type" (.val (.vstr "api_key"))
    (.cons "key_param" (.val (.vstr "k"))
      (.cons "key" (.val (.vstr "v2")) .nil)))

/-- The parse of `https://h.c/a?x=1&k=old&y=2`. -/
def c7wUrl : JsURL :=
  ⟨"https:", true, "h.c", none, "/a", [("x", "1"), ("k", "old"), ("y", "2")]⟩

/-- A one-profile config file used to exercise reloads. -/
def c8content : String := "[apis.g]\nendpoint = \"https://x.y\""

/-- The parse of `c8content`. -/
def c8cfg : TomlTable :=
  .cons "apis"
    (.table (.cons "g"
      (.table (.cons "endpoint" (.val (.vstr "https://x.y")) .nil)) .nil)) .nil

/-- A two-profile config file: one parseable endpoint, one not. -/
def c4content : String :=
  "[apis.g]\nendpoint = \"https://x.y\"\n[apis.b]\nendpoint = \"notaurl\""

/-- The parse of `c4content`. -/
def c4cfg : TomlTable :=
  .cons "apis"
    (.table (.cons "g"
      (.table (.cons "endpoint" (.val (.vstr "https://x.y")) .nil))
      (.cons "b"
        (.table (.cons "endpoint" (.val (.vstr "notaurl")) .nil)) .nil))) .nil

/-! ## Crypto plumbing lemmas -/

/-- Each serialized word byte is below 256. -/
theorem wordBytes_mem_lt (w : Nat) : ∀ b ∈ wordBytes w, b < 256 := by
  simp only [wordBytes, List.mem_cons, List.not_mem_nil, or_false]
  intro b hb
  rcases hb with h | h | h | h <;> subst h <;> omega

/-- A SHA-256 digest has 32 bytes. -/
theorem sha256_length (msg : List Nat) : (sha256 msg).length = 32 := by
  simp [sha256, wordBytes]

/-- Every SHA-256 digest byte is below 256. -/
theorem sha256_mem_lt (msg : List Nat) : ∀ b ∈ sha256 msg, b < 256 := by
  intro b hb
  simp only [sha256, List.mem_append] at hb
  rcases hb with ((((((h | h) | h) | h) | h) | h) | h) | h <;>
    exact wordBytes_mem_lt _ b h

/-- An HMAC-SHA256 tag has 32 bytes. -/
theorem hmacSha256_length (key msg : List Nat) : (hmacSha256 key msg).length = 32 := by
  simp only [hmacSha256]
  exact sha256_length _

/-- Every HMAC-SHA256 tag byte is below 256. -/
theorem hmacSha256_mem_lt (key msg : List Nat) : ∀ b ∈ hmacSha256 key msg, b < 256 := by
  simp only [hmacSha256]
  exact sha256_mem_lt _

/-- `hexCharOfNat` is decoded back by `hexDigitVal`. -/
theorem hexDigitVal_hexCharOfNat (n : Nat) (h : n < 16) :
    hexDigitVal (hexCharOfNat n) = some n := by
  interval_cases n <;> decide

/-- Node hex decoding inverts hex encoding on genuine byte lists. -/
theorem nodeHexDecodeAux_flatMap (bs : List Nat) (h : ∀ b ∈ bs, b < 256) :
    nodeHexDecodeAux (bs.flatMap byteToHex) = bs := by
  induction bs with
  | nil => rfl
  | cons b tl ih =>
      have hb : b < 256 := h b (List.mem_cons_self b tl)
      have e1 : hexDigitVal (hexCharOfNat (b / 16 % 16)) = some (b / 16 % 16) :=
        hexDigitVal_hexCharOfNat _ (Nat.mod_lt _ (by omega))
      have e2 : hexDigitVal (hexCharOfNat (b % 16)) = some (b % 16) :=
        hexDigitVal_hexCharOfNat _ (Nat.mod_lt _ (by omega))
      show nodeHexDecodeAux
        (hexCharOfNat (b / 16 % 16) :: hexCharOfNat (b % 16) :: tl.flatMap byteToHex) =
          b :: tl
      simp only [nodeHexDecodeAux, e1, e2]
      rw [ih (fun x hx => h x (List.mem_cons_of_mem b hx))]
      have hbv : b / 16 % 16 * 16 + b % 16 = b := by omega
      rw [hbv]

/-- `Buffer.from(digest('hex'), 'hex')` recovers the digest bytes. -/
theorem nodeHexDecode_bytesToHex (bs : List Nat) (h : ∀ b ∈ bs, b < 256) :
    nodeHexDecode (bytesToHex bs) = bs := by
  simpa [nodeHexDecode, bytesToHex] using nodeHexDecodeAux_flatMap bs h

/-- The verifier accepts exactly the signatures whose Node hex decoding
equals the HMAC tag of the secret over `JSON.stringify` of the parsed
body. -/
theorem verifyHMAC_eq_iff (secret : String) (payload : Json) (sig : String) :
    verifyHMAC secret payload sig = true ↔
      nodeHexDecode sig =
        hmacSha256 (utf8Bytes secret) (utf8Bytes (jsonStringify payload)) := by
  have hexp := nodeHexDecode_bytesToHex
    (hmacSha256 (utf8Bytes secret) (utf8Bytes (jsonStringify payload)))
    (hmacSha256_mem_lt _ _)
  simp only [verifyHMAC, hexp]
  by_cases hlen : (nodeHexDecode sig).length =
      (hmacSha256 (utf8Bytes secret) (utf8Bytes (jsonStringify payload))).length
  · simp [hlen]
  · simp only [if_neg hlen]
    constructor
    · intro hfalse
      exact absurd hfalse (by simp)
    · intro heq
      exact absurd (congrArg List.length heq) hlen

/-- A signature whose hex decoding is not 32 bytes long never verifies:
`timingSafeEqual` throws on the length mismatch and the catch returns
`false`. -/
theorem verifyHMAC_false_of_badLength (secret : String) (payload : Json)
    (sig : String) (h : (nodeHexDecode sig).length ≠ 32) :
    verifyHMAC secret payload sig = false := by
  have hexp := nodeHexDecode_bytesToHex
    (hmacSha256 (utf8Bytes secret) (utf8Bytes (jsonStringify payload)))
    (hmacSha256_mem_lt _ _)
  simp only [verifyHMAC, hexp]
  rw [if_neg]
  rw [hmacSha256_length]
  exact h

/-- Any request whose signature is absent, empty, or fails `verifyHMAC`
is answered by the `AUTHENTICATION_ERROR` branch of the handler. -/
theorem handleProxy_auth_reject (st : ProxyState) (body : String)
    (sig : Option String) (d : Json) (hparse : jsonParse body = some d)
    (hbad : ∀ s, sig = some s → s ≠ "" → verifyHMAC st.hmacSecret d s = false) :
    handleProxyRequest st body sig = authErrorResult (sigTruthy sig) := by
  unfold handleProxyRequest
  rw [hparse]
  cases sig with
  | none => simp [sigTruthy]
  | some s =>
      by_cases hs : s = ""
      · subst hs
        simp [sigTruthy]
      · have hb := hbad s rfl hs
        simp [sigTruthy, hs, hb]

/-- C1 (amended): a proxy request carrying a parseable descriptor whose
signature is absent, empty, or fails the verifier's actual check — its
Node hex decoding (truncating at the first invalid pair) differs from
`HMAC-SHA256(secret, JSON.stringify(descriptor))` over the inbound field
order — is answered 403 (which satisfies the claim's 401/403) with the
`success:false` JSON body fields `error` and `type`, and no outbound
call is made: the request is never defaulted to allowed.  (A body that
does not even parse as JSON is rejected 400 by the earlier parse stage,
likewise with zero outbound calls.)  The check is weaker than the
original claim's `canonicalJSON` one, see the counterexample. -/
theorem invalid_signature_fails_closed (st : ProxyState) (body : String)
    (sig : Option String) (d : Json) (hparse : jsonParse body = some d)
    (hbad : ∀ s, sig = some s → s ≠ "" → verifyHMAC st.hmacSecret d s = false) :
    (handleProxyRequest st body sig).status = 403 ∧
    (handleProxyRequest st body sig).success = false ∧
    (handleProxyRequest st body sig).errorMsg = "Invalid HMAC signature" ∧
    (handleProxyRequest st body sig).errorType = "AUTHENTICATION_ERROR" ∧
    (handleProxyRequest st body sig).outbound = [] := by
  rw [handleProxy_auth_reject st body sig d hparse hbad]
  exact ⟨rfl, rfl, rfl, rfl, rfl⟩

/-- Witness for C1: a concrete signature-less request is rejected 403
with no outbound call. -/
theorem invalid_signature_fails_closed_witness :
    (handleProxyRequest ⟨"k", [], .nil⟩ "[]" none).status = 403 ∧
    (handleProxyRequest ⟨"k", [], .nil⟩ "[]" none).success = false ∧
    (handleProxyRequest ⟨"k", [], .nil⟩ "[]" none).errorMsg = "Invalid HMAC signature" ∧
    (handleProxyRequest ⟨"k", [], .nil⟩ "[]" none).errorType = "AUTHENTICATION_ERROR" ∧
    (handleProxyRequest ⟨"k", [], .nil⟩ "[]" none).outbound = [] :=
  invalid_signature_fails_closed ⟨"k", [], .nil⟩ "[]" none (.jarr .nil)
    (by decide) (fun s h _ => nomatch h)

/-- Counterexample to C1 as stated: a descriptor sent in non-canonical
field order (`method` first), signed over its own serialization — a
signature that does NOT equal HMAC-SHA256 of the secret over the
canonical fixed-order (`url`, `method`, `headers`, `body`) serialization
of the same logical descriptor — is accepted and forwarded: the handler
answers 200 and makes an outbound call, not the claimed 401/403 with
zero outbound calls. -/
theorem noncanonical_signature_forwarded :
    jsonParse c3body2 = some c3desc2 ∧
    c3desc1.getField "url" = c3desc2.getField "url" ∧
    c3desc1.getField "method" = c3desc2.getField "method" ∧
    c3desc1.getField "headers" = c3desc2.getField "headers" ∧
    c3desc1.getField "body" = c3desc2.getField "body" ∧
    c1sig ≠ bytesToHex (hmacSha256 (utf8Bytes "k") (utf8Bytes (jsonStringify c3desc1))) ∧
    (handleProxyRequest c1State c3body2 (some c1sig)).status = 200 ∧
    (handleProxyRequest c1State c3body2 (some c1sig)).outbound ≠ [] := by
  decide

/-- C10 (amended): for any payload, a presented signature string whose
Node hex decoding — truncating at the first invalid pair — is not
exactly the 32-byte digest length makes `verifyHMAC` return `false`:
the `timingSafeEqual` length-mismatch exception is caught, not
propagated, and the handler answers with the 403 authentication-error
response and zero outbound calls instead of crashing.  Unlike the
original claim, this does not cover every non-hexadecimal string: one
whose valid hex prefix decodes to the correct 32 bytes verifies, see
the counterexample. -/
theorem malformed_signature_returns_false (st : ProxyState) (body : String)
    (sig : String) (d : Json) (hparse : jsonParse body = some d)
    (hlen : (nodeHexDecode sig).length ≠ 32) :
    verifyHMAC st.hmacSecret d sig = false ∧
    (handleProxyRequest st body (some sig)).status = 403 ∧
    (handleProxyRequest st body (some sig)).errorType = "AUTHENTICATION_ERROR" ∧
    (handleProxyRequest st body (some sig)).outbound = [] := by
  have hv := verifyHMAC_false_of_badLength st.hmacSecret d sig hlen
  have hr := handleProxy_auth_reject st body (some sig) d hparse
    (fun s hs _ => by cases hs; exact hv)
  rw [hr]
  exact ⟨hv, rfl, rfl, rfl⟩

/-- Witness for C10: the non-hexadecimal signature `"zz"` is rejected,
not crashed on. -/
theorem malformed_signature_returns_false_witness :
    verifyHMAC "k" (.jarr .nil) "zz" = false ∧
    (handleProxyRequest ⟨"k", [], .nil⟩ "[]" (some "zz")).status = 403 ∧
    (handleProxyRequest ⟨"k", [], .nil⟩ "[]" (some "zz")).errorType = "AUTHENTICATION_ERROR" ∧
    (handleProxyRequest ⟨"k", [], .nil⟩ "[]" (some "zz")).outbound = [] :=
  malformed_signature_returns_false ⟨"k", [], .nil⟩ "[]" "zz" (.jarr .nil)
    (by decide) (by decide)

/-- Counterexample to C10 as stated: a signature string that is not
valid hexadecimal — the correct 64-digit hex signature of the payload
with non-hex junk appended — decodes under Node's truncating hex decode
to exactly the correct 32 digest bytes, so `verifyHMAC` returns `true`
and the request passes the signature check (proceeding here to the
allow-list stage) instead of being rejected with the authentication
error. -/
theorem hex_junk_signature_accepted :
    c10sig.data.all isHexChar = false ∧
    verifyHMAC "k" (.jarr .nil) c10sig = true ∧
    jsonParse "[]" = some (.jarr .nil) ∧
    (handleProxyRequest ⟨"k", [], .nil⟩ "[]" (some c10sig)).errorType =
      "ENDPOINT_NOT_ALLOWED" := by
  decide

/-- C3 (amended): the verifier's expected signature is HMAC-SHA256 of
the secret over `JSON.stringify` of the parsed request body — a
serialization that preserves the inbound body's textual field order
rather than imposing the fixed order `url`, `method`, `headers`, `body`
— and the verification outcome is invariant exactly across bodies with
identical serialized form. -/
theorem verifier_uses_insertion_order_serialization :
    (∀ (secret : String) (payload : Json) (sig : String),
       verifyHMAC secret payload sig = true ↔
         nodeHexDecode sig =
           hmacSha256 (utf8Bytes secret) (utf8Bytes (jsonStringify payload))) ∧
    (∀ (secret : String) (p1 p2 : Json) (sig : String),
       jsonStringify p1 = jsonStringify p2 →
         verifyHMAC secret p1 sig = verifyHMAC secret p2 sig) := by
  refine ⟨verifyHMAC_eq_iff, ?_⟩
  intro secret p1 p2 sig h
  unfold verifyHMAC
  rw [h]

/-- Witness for the amended C3: a correctly computed signature verifies,
through the characterization. -/
theorem verifier_uses_insertion_order_serialization_witness :
    verifyHMAC "k" Json.jnull
      (bytesToHex (hmacSha256 (utf8Bytes "k") (utf8Bytes "null"))) = true ∧
    verifyHMAC "k" Json.jnull "00" = verifyHMAC "k" Json.jnull "00" :=
  ⟨(verifier_uses_insertion_order_serialization.1 "k" Json.jnull _).mpr (by decide),
   verifier_uses_insertion_order_serialization.2 "k" Json.jnull Json.jnull "00" rfl⟩

/-- Counterexample to C3 as stated: two wire bodies encoding the same
logical descriptor (identical `url`, `method`, `headers`, `body` fields)
in different textual field orders verify differently under the secret
`"k"` — the verifier is order-sensitive, not canonical. -/
theorem canonical_order_counterexample :
    jsonParse c3body1 = some c3desc1 ∧
    jsonParse c3body2 = some c3desc2 ∧
    c3desc1.getField "url" = c3desc2.getField "url" ∧
    c3desc1.getField "method" = c3desc2.getField "method" ∧
    c3desc1.getField "headers" = c3desc2.getField "headers" ∧
    c3desc1.getField "body" = c3desc2.getField "body" ∧
    c3body1 ≠ c3body2 ∧
    verifyHMAC "k" c3desc1 c3sig = true ∧
    verifyHMAC "k" c3desc2 c3sig = false := by
  decide

/-! ## Arbitrarily long request bodies (C5) -/

/-- `takeWhile` keeps a digit-only replicate list whole. -/
theorem takeWhile_digit_replicate (n : Nat) :
    (List.replicate n '1').takeWhile isDigitChar = List.replicate n '1' := by
  induction n with
  | zero => rfl
  | succ k ih =>
      rw [List.replicate_succ, List.takeWhile_cons_of_pos (by decide), ih]

/-- `dropWhile` consumes a digit-only replicate list wholly. -/
theorem dropWhile_digit_replicate (n : Nat) :
    (List.replicate n '1').dropWhile isDigitChar = [] := by
  induction n with
  | zero => rfl
  | succ k ih =>
      rw [List.replicate_succ, List.dropWhile_cons_of_pos (by decide), ih]

/-- A string of `n + 1` ones scans as one number token consuming the
whole input. -/
theorem parseNumberToken_ones (n : Nat) :
    parseNumberToken ('1' :: List.replicate n '1') =
      some ('1' :: List.replicate n '1', []) := by
  simp [parseNumberToken, takeWhile_digit_replicate, dropWhile_digit_replicate,
    isDigitChar]

/-- A string of `n + 1` ones parses as a JSON number whose token is the
whole string. -/
theorem jsonParse_ones (n : Nat) :
    jsonParse (String.mk ('1' :: List.replicate n '1')) =
      some (.jnum (String.mk ('1' :: List.replicate n '1'))) := by
  show (match parseValue (2 * ('1' :: List.replicate n '1').length + 2)
          ('1' :: List.replicate n '1') with
        | none => none
        | some (v, rest) => if skipWs rest = [] then some v else none) =
      some (.jnum (String.mk ('1' :: List.replicate n '1')))
  have hf : 2 * ('1' :: List.replicate n '1').length + 2 = (2 * n + 3) + 1 := by
    simp [List.length_replicate]
    omega
  rw [hf]
  simp [parseValue, skipWs, parseNumberToken_ones, isJsonWs, lbrace]

/-- Any request whose body is `n + 1` ones and whose signature header is
`"00"` reaches and fails the signature check: the handler runs
`verifyHMAC` (one-byte decoded signature against the 32-byte tag) and
answers 403, regardless of the body's size. -/
theorem handle_longBody (st : ProxyState) (n : Nat) :
    handleProxyRequest st (String.mk ('1' :: List.replicate n '1')) (some "00") =
      authErrorResult true := by
  have hbad : verifyHMAC st.hmacSecret
      (.jnum (String.mk ('1' :: List.replicate n '1'))) "00" = false :=
    verifyHMAC_false_of_badLength _ _ _ (by decide)
  rw [handleProxy_auth_reject st _ (some "00") _ (jsonParse_ones n)
    (fun s hs _ => by cases hs; exact hbad)]
  rfl

/-- Counterexample to C5 as stated: there is no size ceiling `N` such
that every request whose body exceeds `N` is rejected 400 before any
signature computation — for each candidate `N`, a parseable body of
`N + 1` characters is processed by the signature check (HMAC computed)
and answered 403, not 400. -/
theorem body_size_ceiling_counterexample :
    ¬ ∃ N : Nat, ∀ (st : ProxyState) (body : String) (sig : Option String),
        N < body.length →
        (handleProxyRequest st body sig).status = 400 ∧
        (handleProxyRequest st body sig).hmacComputed = false := by
  rintro ⟨N, h⟩
  have hlen : N < (String.mk ('1' :: List.replicate N '1')).length := by
    show N < ('1' :: List.replicate N '1').length
    simp
  have hcontra := h ⟨"", [], .nil⟩ (String.mk ('1' :: List.replicate N '1'))
    (some "00") hlen
  rw [handle_longBody ⟨"", [], .nil⟩ N] at hcontra
  exact absurd hcontra.1 (by decide)

/-- C5 (amended): the reference implementation imposes no request-body
size ceiling — for every bound `N` and every proxy state there is a
parseable request body longer than `N` characters that is not rejected
with 400 and on which the HMAC signature computation does run. -/
theorem no_body_size_ceiling (N : Nat) (st : ProxyState) :
    ∃ body : String, N < body.length ∧
      (handleProxyRequest st body (some "00")).hmacComputed = true ∧
      (handleProxyRequest st body (some "00")).status ≠ 400 := by
  refine ⟨String.mk ('1' :: List.replicate N '1'), ?_, ?_, ?_⟩
  · show N < ('1' :: List.replicate N '1').length
    simp
  · rw [handle_longBody]
    rfl
  · rw [handle_longBody]
    decide

/-! ## The allow-list gate (C2) -/

/-- The forwarding stage makes an outbound call only after the
allow-list check succeeded on the declared URL. -/
theorem forwardStage_outbound_allowed (st : ProxyState) (d : Json)
    (h : (forwardStage st d).outbound ≠ []) :
    isEndpointAllowed st.allowedEndpoints (d.getField "url") = true := by
  by_cases hallow : isEndpointAllowed st.allowedEndpoints (d.getField "url") = true
  · exact hallow
  · exfalso
    apply h
    unfold forwardStage
    by_cases hnull : d = Json.jnull
    · rw [if_pos hnull]
      rfl
    · rw [if_neg hnull, if_pos hallow]
      rfl

/-- No request reaches the Forwarder unless its body parsed and its
declared URL passed the allow-list membership check. -/
theorem handler_outbound_allowed (st : ProxyState) (body : String)
    (sig : Option String) (h : (handleProxyRequest st body sig).outbound ≠ []) :
    ∃ d, jsonParse body = some d ∧
      isEndpointAllowed st.allowedEndpoints (d.getField "url") = true := by
  unfold handleProxyRequest at h
  cases hp : jsonParse body with
  | none =>
      simp only [hp] at h
      exact absurd rfl h
  | some d =>
      simp only [hp] at h
      refine ⟨d, rfl, ?_⟩
      by_cases hsig : sigTruthy sig = true
      · rw [if_pos hsig] at h
        by_cases hver : verifyHMAC st.hmacSecret d (sig.getD "") = true
        · rw [if_pos hver] at h
          exact forwardStage_outbound_allowed st d h
        · rw [if_neg hver] at h
          exact absurd rfl h
      · rw [if_neg hsig] at h
        exact absurd rfl h

/-- C2 (amended): a request with a parseable body and a valid signature
whose declared URL's origin is absent from the AllowList is answered by
the full 403 `ENDPOINT_NOT_ALLOWED` response with zero outbound calls;
a request with an invalid signature over a disallowed (or any) URL is
already answered 403 by the authentication stage, also with zero
outbound calls; and no request reaches the Forwarder unless its declared
URL passed the allow-list check. -/
theorem endpoint_not_allowed_enforced :
    (∀ (st : ProxyState) (body : String) (sig : Option String) (d : Json)
       (s u : String),
       jsonParse body = some d →
       d.getField "url" = some (.jstr u) →
       (∀ uo, parseURL u = some uo → jsOrigin uo ∉ st.allowedEndpoints) →
       sig = some s → s ≠ "" → verifyHMAC st.hmacSecret d s = true →
       handleProxyRequest st body sig = endpointErrorResult) ∧
    (∀ (st : ProxyState) (body : String) (sig : Option String) (d : Json),
       jsonParse body = some d →
       (∀ s, sig = some s → s ≠ "" → verifyHMAC st.hmacSecret d s = false) →
       (handleProxyRequest st body sig).status = 403 ∧
       (handleProxyRequest st body sig).outbound = []) ∧
    (∀ (st : ProxyState) (body : String) (sig : Option String),
       (handleProxyRequest st body sig).outbound ≠ [] →
       ∃ d, jsonParse body = some d ∧
         isEndpointAllowed st.allowedEndpoints (d.getField "url") = true) := by
  refine ⟨?_, ?_, handler_outbound_allowed⟩
  · intro st body sig d s u hparse hurl hnot hs hne hver
    subst hs
    have hallow : isEndpointAllowed st.allowedEndpoints (d.getField "url") = false := by
      rw [hurl]
      show (match parseURL (jsValToString (some (.jstr u))) with
            | some uu => st.allowedEndpoints.contains (jsOrigin uu)
            | none => false) = false
      rw [show jsValToString (some (.jstr u)) = u from rfl]
      cases hpu : parseURL u with
      | none => rfl
      | some uo =>
          have hmem := hnot uo hpu
          by_contra hcon
          rw [Bool.not_eq_false] at hcon
          exact hmem (List.mem_of_elem_eq_true hcon)
    have hnull : d ≠ Json.jnull := by
      intro hn
      rw [hn] at hurl
      exact absurd hurl (by simp [Json.getField])
    unfold handleProxyRequest
    simp only [hparse]
    have hst : sigTruthy (some s) = true := by simp [sigTruthy, hne]
    rw [if_pos hst, show (some s).getD "" = s from rfl, if_pos hver]
    unfold forwardStage
    rw [if_neg hnull, if_pos (by rw [hallow]; exact Bool.false_ne_true)]
  · intro st body sig d hparse hbad
    rw [handleProxy_auth_reject st body sig d hparse hbad]
    exact ⟨rfl, rfl⟩

/-- Witness for the amended C2: a correctly signed request for a
non-allow-listed origin receives exactly the `ENDPOINT_NOT_ALLOWED`
response. -/
theorem endpoint_not_allowed_enforced_witness :
    handleProxyRequest c2State c2body (some c2sig) = endpointErrorResult :=
  endpoint_not_allowed_enforced.1 c2State c2body (some c2sig) c2desc c2sig
    "https://evil.example/x" (by decide) (by decide)
    (fun uo h => by
      rw [show parseURL "https://evil.example/x" = some c2url from by decide] at h
      cases h
      decide)
    rfl (by decide) (by decide)

/-- Counterexample to C2 as stated: a request whose declared URL's
origin is absent from the AllowList but whose signature is invalid is
rejected with type `AUTHENTICATION_ERROR`, not `ENDPOINT_NOT_ALLOWED` —
the claimed response type does not hold regardless of signature
validity. -/
theorem endpoint_type_counterexample :
    isEndpointAllowed c2State.allowedEndpoints (c2desc.getField "url") = false ∧
    jsonParse c2body = some c2desc ∧
    (handleProxyRequest c2State c2body (some "00")).status = 403 ∧
    (handleProxyRequest c2State c2body (some "00")).errorType = "AUTHENTICATION_ERROR" ∧
    (handleProxyRequest c2State c2body (some "00")).errorType ≠ "ENDPOINT_NOT_ALLOWED" := by
  decide

/-! ## Bearer credential injection (C6) -/

/-- Assignment followed by lookup on a headers object. -/
theorem getF_setF (fs : JsonFields) (k : String) (v : Json) :
    (fs.setF k v).getF k = some v := by
  match fs with
  | .nil => simp [JsonFields.setF, JsonFields.getF]
  | .cons k0 v0 tl =>
      by_cases hk : k0 = k
      · simp [JsonFields.setF, JsonFields.getF, hk]
      · simp only [JsonFields.setF, JsonFields.getF, hk, if_false]
        exact getF_setF tl k v

/-- A bearer profile with a truthy token sets `Authorization` on any
base headers object. -/
theorem addAuth_bearer (base : JsonFields) (cfg : TomlItem) (T : String)
    (hauth : cfg.getProp "auth_type" = some (.val (.vstr "bearer")))
    (htok : cfg.getProp "token" = some (.val (.vstr T))) (hT : T ≠ "") :
    (addAuthenticationHeaders base (some cfg)).getF "Authorization" =
      some (.jstr ("Bearer " ++ T)) := by
  simp [addAuthenticationHeaders, hauth, htok, itemTruthy, tomlTruthy, hT,
    itemToString, tomlValToString, getF_setF]

/-- C6 (amended): whenever the handler dispatches an outbound request
for a descriptor matched to a profile with `auth_type = "bearer"` and a
nonempty `token = T`, the dispatched request carries the header
`Authorization: Bearer T`, byte for byte. -/
theorem bearer_profile_sets_header (st : ProxyState) (body : String)
    (sig : Option String) (d : Json) (nm : String) (cfg : TomlItem)
    (T : String) (o : OutboundRequest)
    (hparse : jsonParse body = some d)
    (hmatch : getApiConfig st.config (d.getField "url") = .ok (some (nm, cfg)))
    (hauth : cfg.getProp "auth_type" = some (.val (.vstr "bearer")))
    (htok : cfg.getProp "token" = some (.val (.vstr T)))
    (hT : T ≠ "")
    (hout : (handleProxyRequest st body sig).outbound = [o]) :
    o.headers.getF "Authorization" = some (.jstr ("Bearer " ++ T)) := by
  unfold handleProxyRequest at hout
  simp only [hparse] at hout
  by_cases hsig : sigTruthy sig = true
  · rw [if_pos hsig] at hout
    by_cases hver : verifyHMAC st.hmacSecret d (sig.getD "") = true
    · rw [if_pos hver] at hout
      unfold forwardStage at hout
      by_cases hnull : d = Json.jnull
      · rw [if_pos hnull] at hout
        exact absurd hout.symm (by simp [requestErrorResult])
      · rw [if_neg hnull] at hout
        by_cases hallow : isEndpointAllowed st.allowedEndpoints (d.getField "url") = true
        · rw [if_neg (by simp [hallow])] at hout
          rw [hmatch] at hout
          simp only at hout
          cases hproc : processUrlWithAuth (d.getField "url")
              ((some (nm, cfg)).map Prod.snd) with
          | error e =>
              rw [hproc] at hout
              exact absurd hout.symm (by simp [requestErrorResult])
          | ok pu =>
              rw [hproc] at hout
              simp only at hout
              cases hpu : parseURL pu with
              | none =>
                  rw [hpu] at hout
                  exact absurd hout.symm (by simp [requestErrorResult])
              | some uo =>
                  rw [hpu] at hout
                  simp only at hout
                  cases hm : d.getField "method" with
                  | none =>
                      rw [hm] at hout
                      exact absurd hout.symm (by simp [requestErrorResult])
                  | some j =>
                      rw [hm] at hout
                      cases j with
                      | jstr m =>
                          simp only at hout
                          have ho : o = buildOutbound d (some (nm, cfg)) uo m := by
                            simpa using hout.symm
                          rw [ho]
                          show (addAuthenticationHeaders _ ((some (nm, cfg)).map Prod.snd)).getF
                              "Authorization" = some (.jstr ("Bearer " ++ T))
                          exact addAuth_bearer _ cfg T hauth htok hT
                      | jnull =>
                          simp only at hout
                          exact absurd hout.symm (by simp [requestErrorResult])
                      | jbool b =>
                          simp only at hout
                          exact absurd hout.symm (by simp [requestErrorResult])
                      | jnum t =>
                          simp only at hout
                          exact absurd hout.symm (by simp [requestErrorResult])
                      | jarr xs =>
                          simp only at hout
                          exact absurd hout.symm (by simp [requestErrorResult])
                      | jobj fs =>
                          simp only at hout
                          exact absurd hout.symm (by simp [requestErrorResult])
        · rw [if_pos (by simp [hallow])] at hout
          exact absurd hout.symm (by simp [endpointErrorResult])
    · rw [if_neg hver] at hout
      exact absurd hout.symm (by simp [authErrorResult])
  · rw [if_neg hsig] at hout
    exact absurd hout.symm (by simp [authErrorResult])

/-- Witness for the amended C6: the concrete `"t"`-token profile yields
`Authorization: Bearer t` on the dispatched request. -/
theorem bearer_profile_sets_header_witness :
    c6wOut.headers.getF "Authorization" = some (.jstr ("Bearer " ++ "t")) :=
  bearer_profile_sets_header c6wState c6body (some c6sig) c6desc "g" c6wCfg
    "t" c6wOut (by decide) (by decide) (by decide) (by decide) (by decide)
    (by decide)

/-- Counterexample to C6 as stated: with `token = ""` the bearer arm is
skipped by JavaScript truthiness, and the dispatched outbound request
carries no `Authorization` header at all. -/
theorem bearer_empty_token_counterexample :
    getApiConfig c6State.config (c6desc.getField "url") = .ok (some ("g", c6cfg)) ∧
    c6cfg.getProp "auth_type" = some (.val (.vstr "bearer")) ∧
    c6cfg.getProp "token" = some (.val (.vstr "")) ∧
    (handleProxyRequest c6State c6body (some c6sig)).outbound.map
      (fun o => o.headers.getF "Authorization") = [none] := by
  decide

/-! ## api_key query injection (C7) -/

/-- `searchParams.set` leaves the assigned pair in the result when the
name was already present. -/
theorem go_mem_self (q : List (String × String)) (k v : String)
    (hq : q.any (fun p => p.1 = k) = true) :
    (k, v) ∈ searchParamsSet.searchParamsSetGo q k v := by
  induction q with
  | nil => simp at hq
  | cons hd tl ih =>
      obtain ⟨k0, v0⟩ := hd
      unfold searchParamsSet.searchParamsSetGo
      by_cases hh : k0 = k
      · subst hh
        rw [if_pos rfl]
        exact List.mem_cons_self _ _
      · rw [if_neg hh]
        refine List.mem_cons_of_mem _ (ih ?_)
        simpa [List.any_cons, hh] using hq

/-- `searchParams.set` keeps every pair with a different name when the
name was already present. -/
theorem go_mem_of_ne (q : List (String × String)) (k v : String)
    (p : String × String) (hp : p ∈ q) (hne : p.1 ≠ k) :
    p ∈ searchParamsSet.searchParamsSetGo q k v := by
  induction q with
  | nil => cases hp
  | cons hd tl ih =>
      obtain ⟨k0, v0⟩ := hd
      unfold searchParamsSet.searchParamsSetGo
      by_cases hh : k0 = k
      · rw [if_pos hh]
        rcases List.mem_cons.mp hp with heq | htl
        · exfalso
          apply hne
          rw [heq] at *
          exact hh
        · exact List.mem_cons_of_mem _ (List.mem_filter.mpr ⟨htl, by simpa using hne⟩)
      · rw [if_neg hh]
        rcases List.mem_cons.mp hp with heq | htl
        · rw [heq]
          exact List.mem_cons_self _ _
        · exact List.mem_cons_of_mem _ (ih htl)

/-- The assigned pair is always in the result of `searchParams.set`. -/
theorem mem_searchParamsSet_self (q : List (String × String)) (k v : String) :
    (k, v) ∈ searchParamsSet q k v := by
  unfold searchParamsSet
  by_cases hq : q.any (fun p => p.1 = k) = true
  · rw [if_pos hq]
    exact go_mem_self q k v hq
  · rw [if_neg hq]
    exact List.mem_append_right _ (List.mem_singleton.mpr rfl)

/-- Every pre-existing pair with a different name survives
`searchParams.set`. -/
theorem mem_searchParamsSet_of_ne (q : List (String × String)) (k v : String)
    (p : String × String) (hp : p ∈ q) (hne : p.1 ≠ k) :
    p ∈ searchParamsSet q k v := by
  unfold searchParamsSet
  by_cases hq : q.any (fun x => x.1 = k) = true
  · rw [if_pos hq]
    exact go_mem_of_ne q k v p hp hne
  · rw [if_neg hq]
    exact List.mem_append_left _ hp

/-- C7 (amended): an `api_key` profile with nonempty `key_param = k` and
nonempty `key = v` rewrites the outbound URL to the serialization whose
query is `searchParams.set`-merged: the pair `k=v` is present, and every
pre-existing query parameter with a different name is preserved. -/
theorem apiKey_query_merge (cfg : TomlItem) (urlStr k v : String) (u : JsURL)
    (hauth : cfg.getProp "auth_type" = some (.val (.vstr "api_key")))
    (hkp : cfg.getProp "key_param" = some (.val (.vstr k))) (hk : k ≠ "")
    (hkey : cfg.getProp "key" = some (.val (.vstr v))) (hv : v ≠ "")
    (hparse : parseURL urlStr = some u) :
    processUrlWithAuth (some (.jstr urlStr)) (some cfg) =
      .ok (serializeURL { u with query := searchParamsSet u.query k v }) ∧
    (k, v) ∈ searchParamsSet u.query k v ∧
    (∀ p ∈ u.query, p.1 ≠ k → p ∈ searchParamsSet u.query k v) := by
  refine ⟨?_, mem_searchParamsSet_self u.query k v,
    fun p hp hne => mem_searchParamsSet_of_ne u.query k v p hp hne⟩
  simp [processUrlWithAuth, hauth, hkp, hkey, itemTruthy, tomlTruthy, hk, hv,
    jsValToString, jsToStringJson, hparse, itemToString, tomlValToString]

/-- Witness for the amended C7: a concrete URL with an existing `k`
parameter is merged (old `k` replaced, other names preserved). -/
theorem apiKey_query_merge_witness :
    processUrlWithAuth (some (.jstr "https://h.c/a?x=1&k=old&y=2")) (some c7wCfg) =
      .ok (serializeURL { c7wUrl with query := searchParamsSet c7wUrl.query "k" "v2" }) ∧
    ("k", "v2") ∈ searchParamsSet c7wUrl.query "k" "v2" ∧
    ("x", "1") ∈ searchParamsSet c7wUrl.query "k" "v2" :=
  ⟨(apiKey_query_merge c7wCfg "https://h.c/a?x=1&k=old&y=2" "k" "v2" c7wUrl
      (by decide) (by decide) (by decide) (by decide) (by decide) (by decide)).1,
   (apiKey_query_merge c7wCfg "https://h.c/a?x=1&k=old&y=2" "k" "v2" c7wUrl
      (by decide) (by decide) (by decide) (by decide) (by decide) (by decide)).2.1,
   (apiKey_query_merge c7wCfg "https://h.c/a?x=1&k=old&y=2" "k" "v2" c7wUrl
      (by decide) (by decide) (by decide) (by decide) (by decide) (by decide)).2.2
     ("x", "1") (by decide) (by decide)⟩

/-- Counterexample to C7 as stated: with `key = ""` the `api_key` arm is
skipped by JavaScript truthiness and the outbound URL is passed through
without `k` ever being added to its query string. -/
theorem apiKey_empty_key_counterexample :
    c7cfg.getProp "auth_type" = some (.val (.vstr "api_key")) ∧
    c7cfg.getProp "key_param" = some (.val (.vstr "k")) ∧
    c7cfg.getProp "key" = some (.val (.vstr "")) ∧
    processUrlWithAuth (some (.jstr "https://h.c/a?x=1")) (some c7cfg) =
      .ok "https://h.c/a?x=1" ∧
    (parseURL "https://h.c/a?x=1").map
      (fun u => u.query.any (fun p => p.1 = "k")) = some false := by
  decide

/-! ## Config reload idempotence (C8) -/

/-- `loadTOMLConfig` clears the allow-list before rebuilding, so its
result is independent of the pre-call allow-list state. -/
theorem loadTOMLConfig_prev_independent (p p' : List String)
    (content : Option String) :
    loadTOMLConfig p content = loadTOMLConfig p' content := rfl

/-- C8: loading the same (unchanged) config content twice — the second
load starting from the state the first one left — produces an AllowList
set-equal (here: equal) to the first one. -/
theorem config_reload_idempotent (prev : List String) (content : Option String)
    (cfg : TomlTable) (allowed : List String)
    (h : loadTOMLConfig prev content = some (cfg, allowed)) :
    ∃ allowed2, loadTOMLConfig allowed content = some (cfg, allowed2) ∧
      ∀ o, o ∈ allowed2 ↔ o ∈ allowed := by
  refine ⟨allowed, ?_, fun o => Iff.rfl⟩
  rw [loadTOMLConfig_prev_independent allowed prev]
  exact h

/-- Witness for C8 on a concrete one-profile config. -/
theorem config_reload_idempotent_witness :
    ∃ allowed2, loadTOMLConfig ["https://x.y"] (some c8content) =
      some (c8cfg, allowed2) ∧ ∀ o, o ∈ allowed2 ↔ o ∈ ["https://x.y"] :=
  config_reload_idempotent [] (some c8content) c8cfg ["https://x.y"] (by decide)

/-! ## Config well-formedness: stored numeric tokens (C4 machinery)

Everything `parseTOML` builds satisfies `numOk`: numeric leaves hold
tokens accepted by `jsIsNumericString`, because only `coerceValue`
introduces numbers and it guards them with exactly that test. -/

/-- Looking up in a well-formed table yields a well-formed item. -/
theorem getT_numOk (t : TomlTable) (k : String) (it : TomlItem)
    (ht : t.numOk = true) (h : t.getT k = some it) : it.numOk = true := by
  match t with
  | .nil => cases h
  | .cons k0 it0 tl =>
      simp only [TomlTable.numOk, Bool.and_eq_true] at ht
      simp only [TomlTable.getT] at h
      by_cases hk : k0 = k
      · rw [if_pos hk] at h
        cases h
        exact ht.1
      · rw [if_neg hk] at h
        exact getT_numOk tl k it ht.2 h

/-- Assigning a well-formed item preserves table well-formedness. -/
theorem setT_numOk (t : TomlTable) (k : String) (it : TomlItem)
    (ht : t.numOk = true) (hit : it.numOk = true) : (t.setT k it).numOk = true := by
  match t with
  | .nil => simp [TomlTable.setT, TomlTable.numOk, hit]
  | .cons k0 it0 tl =>
      simp only [TomlTable.numOk, Bool.and_eq_true] at ht
      simp only [TomlTable.setT]
      by_cases hk : k0 = k
      · rw [if_pos hk]
        simp [TomlTable.numOk, hit, ht.2]
      · rw [if_neg hk]
        simp [TomlTable.numOk, ht.1, setT_numOk tl k it ht.2 hit]

/-- Every entry of a well-formed table is well-formed. -/
theorem toList_numOk (t : TomlTable) (ht : t.numOk = true) :
    ∀ p ∈ t.toList, p.2.numOk = true := by
  match t with
  | .nil =>
      intro p hp
      cases hp
  | .cons k0 it0 tl =>
      simp only [TomlTable.numOk, Bool.and_eq_true] at ht
      intro p hp
      simp only [TomlTable.toList] at hp
      rcases List.mem_cons.mp hp with he | htl
      · rw [he]
        exact ht.1
      · exact toList_numOk tl ht.2 p htl

/-- Property access on a well-formed item yields a well-formed item. -/
theorem getProp_numOk (it : TomlItem) (k : String) (it2 : TomlItem)
    (hit : it.numOk = true) (h : it.getProp k = some it2) : it2.numOk = true := by
  match it with
  | .val v => cases h
  | .table t => exact getT_numOk t k it2 hit h

/-- `coerceValue` only creates numbers from JavaScript-numeric tokens. -/
theorem coerce_numOk (v : String) : (TomlItem.val (coerceValue v)).numOk = true := by
  unfold coerceValue
  by_cases h1 : (headIs v '"' ∧ lastIs v '"')
  · rw [if_pos h1]
    rfl
  · rw [if_neg h1]
    by_cases h2 : v = "true"
    · rw [if_pos h2]
      rfl
    · rw [if_neg h2]
      by_cases h3 : v = "false"
      · rw [if_pos h3]
        rfl
      · rw [if_neg h3]
        by_cases h4 : jsIsNumericString v = true
        · rw [if_pos h4]
          simpa [TomlItem.numOk] using h4
        · rw [if_neg h4]
          rfl

/-- Walking/creating a section path preserves well-formedness. -/
theorem ensurePath_numOk (parts : List String) (t t2 : TomlTable) (live : Bool)
    (ht : t.numOk = true) (h : ensurePath t parts = .ok (t2, live)) :
    t2.numOk = true := by
  induction parts generalizing t t2 live with
  | nil =>
      simp only [ensurePath] at h
      cases h
      exact ht
  | cons part rest ih =>
      simp only [ensurePath] at h
      cases hg : t.getT part with
      | some it =>
          cases it with
          | table sub =>
              simp only [hg] at h
              cases he : ensurePath sub rest with
              | error e =>
                  rw [he] at h
                  cases h
              | ok pr =>
                  obtain ⟨sub2, live2⟩ := pr
                  rw [he] at h
                  simp only [] at h
                  cases h
                  refine setT_numOk t part (.table sub2) ht ?_
                  show sub2.numOk = true
                  exact ih sub sub2 _
                    (getT_numOk t part (.table sub) ht hg) he
          | val vv =>
              simp only [hg] at h
              by_cases htr : tomlTruthy vv = true
              · rw [if_pos htr] at h
                cases rest with
                | nil =>
                    simp only [] at h
                    cases h
                    exact ht
                | cons r rs =>
                    simp only [] at h
                    cases h
              · rw [if_neg htr] at h
                cases he : ensurePath TomlTable.nil rest with
                | error e =>
                    rw [he] at h
                    cases h
                | ok pr =>
                    obtain ⟨sub2, live2⟩ := pr
                    rw [he] at h
                    simp only [] at h
                    cases h
                    refine setT_numOk t part (.table sub2) ht ?_
                    show sub2.numOk = true
                    exact ih TomlTable.nil sub2 _ rfl he
      | none =>
          simp only [hg] at h
          cases he : ensurePath TomlTable.nil rest with
          | error e =>
              rw [he] at h
              cases h
          | ok pr =>
              obtain ⟨sub2, live2⟩ := pr
              rw [he] at h
              simp only [] at h
              cases h
              refine setT_numOk t part (.table sub2) ht ?_
              show sub2.numOk = true
              exact ih TomlTable.nil sub2 _ rfl he

/-- Assigning a well-formed value at a path preserves well-formedness. -/
theorem setAtPath_numOk (path : List String) (t : TomlTable) (k : String)
    (v : TomlValue) (ht : t.numOk = true) (hv : (TomlItem.val v).numOk = true) :
    (setAtPath t path k v).numOk = true := by
  induction path generalizing t with
  | nil => exact setT_numOk t k (.val v) ht hv
  | cons part rest ih =>
      simp only [setAtPath]
      cases hg : t.getT part with
      | some it =>
          cases it with
          | table sub =>
              refine setT_numOk t part _ ht ?_
              show (setAtPath sub rest k v).numOk = true
              exact ih sub (getT_numOk t part (.table sub) ht hg)
          | val vv => exact ht
      | none => exact ht

/-- One parser line step preserves well-formedness of the built table. -/
theorem processTOMLLine_numOk (st : TomlParseState) (l : String)
    (st2 : TomlParseState) (ht : st.tree.numOk = true)
    (h : processTOMLLine st l = .ok st2) : st2.tree.numOk = true := by
  simp only [processTOMLLine] at h
  split at h
  · cases h
    exact ht
  · split at h
    · split at h
      · cases h
      · rename_i t2 live he
        cases h
        exact ensurePath_numOk _ st.tree t2 live ht he
    · split at h
      · split at h
        · cases h
        · rename_i path hcur
          cases h
          exact setAtPath_numOk path st.tree _ _ ht (coerce_numOk _)
      · cases h
        exact ht

/-- The parser's line fold preserves well-formedness. -/
theorem parseTOML_go_numOk (ls : List String) (st st2 : TomlParseState)
    (ht : st.tree.numOk = true) (h : parseTOML.go ls st = .ok st2) :
    st2.tree.numOk = true := by
  induction ls generalizing st with
  | nil =>
      simp only [parseTOML.go] at h
      cases h
      exact ht
  | cons l rest ih =>
      simp only [parseTOML.go] at h
      cases hp : processTOMLLine st l with
      | error e =>
          rw [hp] at h
          cases h
      | ok stMid =>
          rw [hp] at h
          exact ih stMid (processTOMLLine_numOk st l stMid ht hp) h

/-- Everything `parseTOML` produces is well-formed. -/
theorem parseTOML_numOk (content : String) (cfg : TomlTable)
    (h : parseTOML content = .ok cfg) : cfg.numOk = true := by
  simp only [parseTOML] at h
  cases hg : parseTOML.go ((splitOnChar '\n' content.data).map String.mk)
      ⟨TomlTable.nil, some []⟩ with
  | error e =>
      rw [hg] at h
      cases h
  | ok st =>
      rw [hg] at h
      simp only [] at h
      cases h
      exact parseTOML_go_numOk _ ⟨TomlTable.nil, some []⟩ st rfl hg

/-! ## Numeric tokens contain no colon, so they never parse as URLs
(C4 machinery, part 2) -/

/-- A decimal digit is not a colon. -/
theorem isDigitChar_ne_colon (c : Char) (h : isDigitChar c = true) : c ≠ ':' := by
  intro he
  subst he
  exact absurd h (by decide)

/-- A hex digit is not a colon. -/
theorem isHexChar_ne_colon (c : Char) (h : isHexChar c = true) : c ≠ ':' := by
  intro he
  subst he
  exact absurd h (by decide)

/-- An octal digit is not a colon. -/
theorem isOctalChar_ne_colon (c : Char) (h : isOctalChar c = true) : c ≠ ':' := by
  intro he
  subst he
  exact absurd h (by decide)

/-- A binary digit is not a colon. -/
theorem isBinaryChar_ne_colon (c : Char) (h : isBinaryChar c = true) : c ≠ ':' := by
  intro he
  subst he
  exact absurd h (by decide)

/-- A sign-and-digits exponent tail contains no colon. -/
theorem jsSignedDigits_no_colon (l : List Char) (h : jsSignedDigits l = true) :
    ':' ∉ l := by
  intro hm
  cases l with
  | nil => cases hm
  | cons s rr =>
      simp only [jsSignedDigits] at h
      by_cases hs : s = '+' ∨ s = '-'
      · rw [if_pos hs, Bool.and_eq_true] at h
        rcases List.mem_cons.mp hm with hc | hmr
        · rcases hs with h1 | h1 <;> rw [h1] at hc <;> exact absurd hc (by decide)
        · exact isDigitChar_ne_colon ':' (List.all_eq_true.mp h.2 ':' hmr) rfl
      · rw [if_neg hs] at h
        exact isDigitChar_ne_colon ':' (List.all_eq_true.mp h ':' hm) rfl

/-- An exponent suffix contains no colon. -/
theorem jsExponentOk_no_colon (l : List Char) (h : jsExponentOk l = true) :
    ':' ∉ l := by
  intro hm
  cases l with
  | nil => cases hm
  | cons e r =>
      simp only [jsExponentOk, Bool.and_eq_true] at h
      rcases List.mem_cons.mp hm with hc | hmr
      · rw [← hc] at h
        exact absurd h.1 (by decide)
      · exact jsSignedDigits_no_colon r h.2 hmr

/-- An unsigned decimal literal contains no colon. -/
theorem jsUnsignedDecimal_no_colon (cs : List Char)
    (h : jsUnsignedDecimal cs = true) : ':' ∉ cs := by
  intro hm
  unfold jsUnsignedDecimal at h
  rw [Bool.or_eq_true] at h
  rcases h with hInf | hbody
  · have he := eq_of_beq hInf
    subst he
    exact absurd hm (by decide)
  · have hm2 : ':' ∈ cs.takeWhile isDigitChar ++ cs.dropWhile isDigitChar := by
      rw [List.takeWhile_append_dropWhile]
      exact hm
    rcases List.mem_append.mp hm2 with hip | hrest
    · exact isDigitChar_ne_colon ':' (List.mem_takeWhile_imp hip) rfl
    · cases hd : cs.dropWhile isDigitChar with
      | nil => rw [hd] at hrest; cases hrest
      | cons d r2 =>
          rw [hd] at hrest
          simp only [hd] at hbody
          by_cases hdot : d = '.'
          · rw [if_pos hdot, Bool.and_eq_true] at hbody
            rcases List.mem_cons.mp hrest with hc | hmr2
            · rw [hdot] at hc
              exact absurd hc (by decide)
            · have hm3 : ':' ∈ r2.takeWhile isDigitChar ++ r2.dropWhile isDigitChar := by
                rw [List.takeWhile_append_dropWhile]
                exact hmr2
              rcases List.mem_append.mp hm3 with hfp | hr3
              · exact isDigitChar_ne_colon ':' (List.mem_takeWhile_imp hfp) rfl
              · exact jsExponentOk_no_colon _ hbody.2 hr3
          · rw [if_neg hdot, Bool.and_eq_true] at hbody
            exact jsExponentOk_no_colon _ hbody.2 hrest

/-- A signed decimal literal contains no colon. -/
theorem jsDecimalLiteral_no_colon (cs : List Char)
    (h : jsDecimalLiteral cs = true) : ':' ∉ cs := by
  intro hm
  cases cs with
  | nil => cases hm
  | cons c r =>
      simp only [jsDecimalLiteral] at h
      by_cases hs : c = '+' ∨ c = '-'
      · rw [if_pos hs] at h
        rcases List.mem_cons.mp hm with hc | hmr
        · rcases hs with h1 | h1 <;> rw [h1] at hc <;> exact absurd hc (by decide)
        · exact jsUnsignedDecimal_no_colon r h hmr
      · rw [if_neg hs] at h
        exact jsUnsignedDecimal_no_colon _ h hm

/-- Characters of the trimmed string come from the original. -/
theorem mem_of_mem_jsTrim (s : String) (c : Char) (h : c ∈ (jsTrim s).data) :
    c ∈ s.data := by
  have hd : (jsTrim s).data =
      ((s.data.dropWhile jsWsChar).reverse.dropWhile jsWsChar).reverse := rfl
  rw [hd, List.mem_reverse] at h
  have h1 := (List.dropWhile_sublist _).subset h
  rw [List.mem_reverse] at h1
  exact (List.dropWhile_sublist _).subset h1

/-- Non-whitespace characters survive trimming. -/
theorem mem_jsTrim_of_mem (s : String) (c : Char) (h : c ∈ s.data)
    (hws : jsWsChar c = false) : c ∈ (jsTrim s).data := by
  have hd : (jsTrim s).data =
      ((s.data.dropWhile jsWsChar).reverse.dropWhile jsWsChar).reverse := rfl
  rw [hd, List.mem_reverse]
  have h1 : c ∈ s.data.dropWhile jsWsChar := by
    have hm2 : c ∈ s.data.takeWhile jsWsChar ++ s.data.dropWhile jsWsChar := by
      rw [List.takeWhile_append_dropWhile]
      exact h
    rcases List.mem_append.mp hm2 with h2 | h2
    · have h3 := List.mem_takeWhile_imp h2
      rw [h3] at hws
      cases hws
    · exact h2
  have h2 : c ∈ (s.data.dropWhile jsWsChar).reverse := List.mem_reverse.mpr h1
  have hm3 : c ∈ (s.data.dropWhile jsWsChar).reverse.takeWhile jsWsChar ++
      (s.data.dropWhile jsWsChar).reverse.dropWhile jsWsChar := by
    rw [List.takeWhile_append_dropWhile]
    exact h2
  rcases List.mem_append.mp hm3 with h3 | h3
  · have h4 := List.mem_takeWhile_imp h3
    rw [h4] at hws
    cases hws
  · exact h3

/-- A string accepted by the JavaScript numeric test contains no colon. -/
theorem jsIsNumericString_no_colon (t : String)
    (h : jsIsNumericString t = true) : ':' ∉ t.data := by
  intro hm
  have htr : ':' ∈ (jsTrim t).data := mem_jsTrim_of_mem t ':' hm (by decide)
  unfold jsIsNumericString at h
  split at h
  · rename_i heq
    rw [heq] at htr
    cases htr
  · rename_i x rest heq
    rw [heq] at htr
    by_cases hx : x = 'x' ∨ x = 'X'
    · rw [if_pos hx] at h
      have hc := of_decide_eq_true h
      rcases List.mem_cons.mp htr with h1 | h1
      · exact absurd h1 (by decide)
      rcases List.mem_cons.mp h1 with h2 | h2
      · rcases hx with h3 | h3 <;> rw [h3] at h2 <;> exact absurd h2 (by decide)
      · exact isHexChar_ne_colon ':' (List.all_eq_true.mp hc.2 ':' h2) rfl
    · rw [if_neg hx] at h
      by_cases ho : x = 'o' ∨ x = 'O'
      · rw [if_pos ho] at h
        have hc := of_decide_eq_true h
        rcases List.mem_cons.mp htr with h1 | h1
        · exact absurd h1 (by decide)
        rcases List.mem_cons.mp h1 with h2 | h2
        · rcases ho with h3 | h3 <;> rw [h3] at h2 <;> exact absurd h2 (by decide)
        · exact isOctalChar_ne_colon ':' (List.all_eq_true.mp hc.2 ':' h2) rfl
      · rw [if_neg ho] at h
        by_cases hb : x = 'b' ∨ x = 'B'
        · rw [if_pos hb] at h
          have hc := of_decide_eq_true h
          rcases List.mem_cons.mp htr with h1 | h1
          · exact absurd h1 (by decide)
          rcases List.mem_cons.mp h1 with h2 | h2
          · rcases hb with h3 | h3 <;> rw [h3] at h2 <;> exact absurd h2 (by decide)
          · exact isBinaryChar_ne_colon ':' (List.all_eq_true.mp hc.2 ':' h2) rfl
        · rw [if_neg hb] at h
          exact jsDecimalLiteral_no_colon _ h htr
  · exact jsDecimalLiteral_no_colon _ h htr

/-- Characters of the preprocessed URL input come from the original. -/
theorem mem_urlPreprocess (s : String) (c : Char) (h : c ∈ urlPreprocess s) :
    c ∈ s.data := by
  unfold urlPreprocess at h
  have h1 := List.mem_of_mem_filter h
  rw [List.mem_reverse] at h1
  have h2 := (List.dropWhile_sublist _).subset h1
  rw [List.mem_reverse] at h2
  exact (List.dropWhile_sublist _).subset h2

/-- `new URL` throws on any input without a colon (no scheme separator). -/
theorem parseURL_none_of_no_colon (s : String) (h : ':' ∉ s.data) :
    parseURL s = none := by
  have hpre : ':' ∉ urlPreprocess s := fun hc => h (mem_urlPreprocess s ':' hc)
  have hdef : parseURL s = parseURLChars (urlPreprocess s) := rfl
  rw [hdef]
  cases hcs : urlPreprocess s with
  | nil => rfl
  | cons c0 tl =>
      simp only [parseURLChars]
      by_cases ha : isAsciiAlpha c0 = true
      · rw [if_neg (fun hn => absurd ha hn)]
        cases hd : (c0 :: tl).dropWhile isSchemeChar with
        | nil => simp only [hd]
        | cons a r =>
            have hane : a ≠ ':' := by
              intro he
              apply hpre
              rw [hcs]
              have ham : a ∈ (c0 :: tl).dropWhile isSchemeChar := by
                rw [hd]
                exact List.mem_cons_self a r
              exact he ▸ (List.dropWhile_sublist _).subset ham
            split
            · rename_i afterColon heq
              injection heq with h1 _
              exact absurd h1 hane
            · rfl
      · rw [if_pos (fun hn => absurd hn ha)]

/-- A falsy config entry never stringifies to a parseable URL: absent
entries print as `undefined`, the empty string and `false` have no
colon, and well-formed falsy numbers are numeric tokens, which have no
colon either. -/
theorem falsy_item_no_parse (ep : Option TomlItem)
    (hnum : ∀ it, ep = some it → it.numOk = true)
    (hfalsy : itemTruthy ep = false) :
    parseURL (itemToString ep) = none := by
  cases ep with
  | none => decide
  | some it =>
      cases it with
      | table t => simp [itemTruthy] at hfalsy
      | val v =>
          cases v with
          | vstr s =>
              have hs : s = "" := by
                have h1 : decide (s ≠ "") = false := hfalsy
                rw [decide_eq_false_iff_not] at h1
                exact not_not.mp h1
              rw [show itemToString (some (.val (.vstr s))) = s from rfl, hs]
              decide
          | vbool b =>
              have hb : b = false := by
                cases b
                · rfl
                · simp [itemTruthy, tomlTruthy] at hfalsy
              rw [hb]
              decide
          | vnum t =>
              have hn : jsIsNumericString t = true := hnum _ rfl
              exact parseURL_none_of_no_colon t (jsIsNumericString_no_colon t hn)

/-- Every profile enumerated from a well-formed `apis` entry is itself
well-formed (string-valued `apis` enumerates single-character strings). -/
theorem entriesOfApis_numOk (ap : Option TomlItem)
    (hap : ∀ it, ap = some it → it.numOk = true) :
    ∀ e ∈ entriesOfApis ap, e.2.numOk = true := by
  intro e he
  cases ap with
  | none => cases he
  | some it =>
      cases it with
      | table t => exact toList_numOk t (hap _ rfl) e he
      | val v =>
          cases v with
          | vstr s =>
              simp only [entriesOfApis] at he
              obtain ⟨p, hp, hep⟩ := List.mem_map.mp he
              obtain ⟨p1, p2⟩ := p
              have h2 := (List.of_mem_zip hp).2
              obtain ⟨c, -, hc⟩ := List.mem_map.mp h2
              rw [← hep]
              show p2.numOk = true
              rw [← hc]
              rfl
          | vbool b => cases he
          | vnum t2 => cases he

/-- Membership in the JavaScript-`Set` model: the old elements plus the
new one. -/
theorem mem_setAdd (l : List String) (x y : String) :
    y ∈ setAdd l x ↔ y ∈ l ∨ y = x := by
  unfold setAdd
  by_cases hc : l.contains x = true
  · rw [if_pos hc]
    constructor
    · exact Or.inl
    · rintro (h | h)
      · exact h
      · rw [h]
        exact List.mem_of_elem_eq_true hc
  · rw [if_neg hc]
    rw [List.mem_append, List.mem_singleton]

/-- One step of the allow-list fold. -/
theorem originsOfApis_cons (e : String × TomlItem) (tl : List (String × TomlItem))
    (start : List String) :
    originsOfApis (e :: tl) start =
      originsOfApis tl
        (if itemTruthy (e.2.getProp "endpoint") then
          match parseURL (itemToString (e.2.getProp "endpoint")) with
          | some u => setAdd start (jsOrigin u)
          | none => start
        else start) := rfl

/-- Membership in the allow-list fold: the starting elements plus the
origin of every profile whose endpoint is truthy and parses. -/
theorem mem_originsOfApis (entries : List (String × TomlItem)) (start : List String)
    (o : String) :
    o ∈ originsOfApis entries start ↔ o ∈ start ∨ ∃ e ∈ entries,
      itemTruthy (e.2.getProp "endpoint") = true ∧ ∃ u,
        parseURL (itemToString (e.2.getProp "endpoint")) = some u ∧
          jsOrigin u = o := by
  induction entries generalizing start with
  | nil => simp [originsOfApis]
  | cons e tl ih =>
      rw [originsOfApis_cons, ih]
      have hstep : o ∈ (if itemTruthy (e.2.getProp "endpoint") then
          match parseURL (itemToString (e.2.getProp "endpoint")) with
          | some u => setAdd start (jsOrigin u)
          | none => start
        else start) ↔ o ∈ start ∨ (itemTruthy (e.2.getProp "endpoint") = true ∧
          ∃ u, parseURL (itemToString (e.2.getProp "endpoint")) = some u ∧
            jsOrigin u = o) := by
        by_cases htr : itemTruthy (e.2.getProp "endpoint") = true
        · rw [if_pos htr]
          cases hp : parseURL (itemToString (e.2.getProp "endpoint")) with
          | none => simp [htr, hp]
          | some u =>
              rw [mem_setAdd]
              simp [htr, hp, eq_comm]
        · rw [if_neg htr]
          simp [htr]
      rw [hstep]
      simp only [List.mem_cons]
      constructor
      · rintro ((h | h) | h)
        · exact Or.inl h
        · exact Or.inr ⟨e, Or.inl rfl, h⟩
        · obtain ⟨e2, he2, h2⟩ := h
          exact Or.inr ⟨e2, Or.inr he2, h2⟩
      · rintro (h | ⟨e2, he2 | he2, h2⟩)
        · exact Or.inl (Or.inl h)
        · subst he2
          exact Or.inl (Or.inr h2)
        · exact Or.inr ⟨e2, he2, h2⟩

/-- C4: after every successful config load, the allow-list holds exactly
the origins `protocol + '//' + hostname` of the configured profiles
whose `endpoint` parses under `new URL`; profiles whose endpoint fails
to parse (or is falsy, hence unparsable) contribute nothing, and the
result is independent of the allow-list left by any earlier load — never
a mix of old and new entries. -/
theorem allowlist_reflects_config (prev : List String) (content : Option String)
    (cfg : TomlTable) (allowed : List String)
    (h : loadTOMLConfig prev content = some (cfg, allowed)) :
    (∀ o, o ∈ allowed ↔ ∃ e ∈ entriesOfApis (cfg.getT "apis"), ∃ u,
        parseURL (itemToString (e.2.getProp "endpoint")) = some u ∧
          jsOrigin u = o) ∧
    ∀ prev', loadTOMLConfig prev' content = some (cfg, allowed) := by
  refine ⟨?_, fun prev' =>
    (loadTOMLConfig_prev_independent prev' prev content).trans h⟩
  cases content with
  | none => simp [loadTOMLConfig] at h
  | some c =>
      simp only [loadTOMLConfig] at h
      cases hp : parseTOML c with
      | error e => rw [hp] at h; cases h
      | ok cfg0 =>
          rw [hp] at h
          simp only [Option.some.injEq, Prod.mk.injEq] at h
          obtain ⟨hcfg, hall⟩ := h
          subst hcfg
          intro o
          have hnum : cfg0.numOk = true := parseTOML_numOk c cfg0 hp
          rw [← hall]
          by_cases htr : itemTruthy (cfg0.getT "apis") = true
          · rw [if_pos htr, mem_originsOfApis]
            simp only [List.not_mem_nil, false_or]
            constructor
            · rintro ⟨e, he, -, u, hpu, ho⟩
              exact ⟨e, he, u, hpu, ho⟩
            · rintro ⟨e, he, u, hpu, ho⟩
              refine ⟨e, he, ?_, u, hpu, ho⟩
              by_contra hcon
              rw [Bool.not_eq_true] at hcon
              have hnp : parseURL (itemToString (e.2.getProp "endpoint")) = none :=
                falsy_item_no_parse _
                  (fun it hit => getProp_numOk e.2 "endpoint" it
                    (entriesOfApis_numOk (cfg0.getT "apis")
                      (fun it2 hit2 => getT_numOk cfg0 "apis" it2 hnum hit2) e he)
                    hit)
                  hcon
              rw [hnp] at hpu
              cases hpu
          · rw [if_neg htr]
            have hent : entriesOfApis (cfg0.getT "apis") = [] := by
              cases hg : cfg0.getT "apis" with
              | none => rfl
              | some it =>
                  cases it with
                  | table t =>
                      rw [hg] at htr
                      simp [itemTruthy] at htr
                  | val v =>
                      cases v with
                      | vstr s =>
                          rw [hg] at htr
                          have hs : s = "" := by
                            by_contra hne
                            exact htr (by simp [itemTruthy, tomlTruthy, hne])
                          rw [hs]
                          rfl
                      | vbool b => rfl
                      | vnum t2 => rfl
            rw [hent]
            simp

/-- Witness for C4 on a concrete two-profile config, one endpoint
parseable and one not. -/
theorem allowlist_reflects_config_witness :
    (∀ o, o ∈ ["https://x.y"] ↔ ∃ e ∈ entriesOfApis (c4cfg.getT "apis"), ∃ u,
        parseURL (itemToString (e.2.getProp "endpoint")) = some u ∧
          jsOrigin u = o) ∧
    ∀ prev', loadTOMLConfig prev' (some c4content) =
      some (c4cfg, ["https://x.y"]) :=
  allowlist_reflects_config [] (some c4content) c4cfg ["https://x.y"] (by decide)

/-! ## Value coercion of key/value lines (C9) -/

/-- Splitting on a character absent from the list yields one piece. -/
theorem splitOnChar_of_not_mem (sep : Char) (cs : List Char) (h : sep ∉ cs) :
    splitOnChar sep cs = [cs] := by
  induction cs with
  | nil => rfl
  | cons c rest ih =>
      have hc : c ≠ sep := fun he => h (he ▸ List.mem_cons_self c rest)
      have hr : sep ∉ rest := fun hm => h (List.mem_cons_of_mem c hm)
      simp [splitOnChar, hc, ih hr]

/-- `dropWhile` is the identity when no element satisfies the test. -/
theorem dropWhile_all_false (p : Char → Bool) (l : List Char)
    (h : ∀ c ∈ l, p c = false) : l.dropWhile p = l := by
  induction l with
  | nil => rfl
  | cons c rest ih =>
      rw [List.dropWhile_cons_of_neg]
      simp [h c (List.mem_cons_self c rest)]

/-- `jsTrim` is the identity on whitespace-free strings. -/
theorem jsTrim_mk_of_no_ws (cs : List Char) (h : ∀ c ∈ cs, jsWsChar c = false) :
    jsTrim (String.mk cs) = String.mk cs := by
  show String.mk (((cs.dropWhile jsWsChar).reverse.dropWhile jsWsChar).reverse) =
    String.mk cs
  rw [dropWhile_all_false jsWsChar cs h,
    dropWhile_all_false jsWsChar cs.reverse (fun c hc => h c (List.mem_reverse.mp hc)),
    List.reverse_reverse]

/-- `takeWhile (· ≠ x)` stops exactly at the first `x`. -/
theorem takeWhile_ne_append (l1 l2 : List Char) (x : Char) (h : x ∉ l1) :
    (l1 ++ x :: l2).takeWhile (fun c => c ≠ x) = l1 := by
  induction l1 with
  | nil =>
      rw [List.nil_append, List.takeWhile_cons_of_neg (by simp)]
  | cons c rest ih =>
      have hc : c ≠ x := fun he => h (he ▸ List.mem_cons_self c rest)
      rw [List.cons_append,
        @List.takeWhile_cons_of_pos Char (fun c => decide (c ≠ x)) c
          (rest ++ x :: l2) (decide_eq_true hc),
        ih (fun hm => h (List.mem_cons_of_mem c hm))]

/-- `dropWhile (· ≠ x)` resumes exactly at the first `x`. -/
theorem dropWhile_ne_append (l1 l2 : List Char) (x : Char) (h : x ∉ l1) :
    (l1 ++ x :: l2).dropWhile (fun c => c ≠ x) = x :: l2 := by
  induction l1 with
  | nil =>
      rw [List.nil_append, List.dropWhile_cons_of_neg (by simp)]
  | cons c rest ih =>
      have hc : c ≠ x := fun he => h (he ▸ List.mem_cons_self c rest)
      rw [List.cons_append,
        @List.dropWhile_cons_of_pos Char (fun c => decide (c ≠ x)) c
          (rest ++ x :: l2) (decide_eq_true hc),
        ih (fun hm => h (List.mem_cons_of_mem c hm))]

/-- C9 (amended): a `key = value` config line (whitespace-free key and
value, key not opening a comment or section header) is stored under the
trimmed key with `coerceValue` applied to the trimmed value, and the
coercion behaves as: surrounding double quotes stripped to a string;
bare `true`/`false` to booleans; values accepted by JavaScript numeric
coercion — which includes the empty value, becoming the number 0, and
hex/exponent/`Infinity` forms, not only plain numeric tokens — to
numbers; everything else to a literal string. -/
theorem parseTOML_line_coercion (k v : String) (hkne : k ≠ "")
    (hknws : ∀ c ∈ k.data, jsWsChar c = false ∧ c ≠ '=')
    (hvnws : ∀ c ∈ v.data, jsWsChar c = false)
    (hhash : k.data.head? ≠ some '#')
    (hbr : k.data.head? ≠ some '[') :
    parseTOML (k ++ "=" ++ v) = .ok (.cons k (.val (coerceValue v)) .nil) ∧
    ((headIs v '"' ∧ lastIs v '"') → coerceValue v = .vstr (sliceEnds v)) ∧
    (¬ (headIs v '"' ∧ lastIs v '"') → v = "true" → coerceValue v = .vbool true) ∧
    (¬ (headIs v '"' ∧ lastIs v '"') → v = "false" → coerceValue v = .vbool false) ∧
    (¬ (headIs v '"' ∧ lastIs v '"') → v ≠ "true" → v ≠ "false" →
      jsIsNumericString v = true → coerceValue v = .vnum v) ∧
    (¬ (headIs v '"' ∧ lastIs v '"') → v ≠ "true" → v ≠ "false" →
      jsIsNumericString v = false → coerceValue v = .vstr v) := by
  have hdata : (k ++ "=" ++ v).data = k.data ++ '=' :: v.data := by
    simp [String.data_append]
  have hkd : ∃ c ks, k.data = c :: ks := by
    cases hk : k.data with
    | nil =>
        exact absurd (show k = "" from congrArg String.mk hk) hkne
    | cons c ks => exact ⟨c, ks, rfl⟩
  obtain ⟨c0, ks, hk0⟩ := hkd
  have hc0hash : c0 ≠ '#' := by
    rw [hk0] at hhash
    simpa using hhash
  have hc0br : c0 ≠ '[' := by
    rw [hk0] at hbr
    simpa using hbr
  have hcsform : (k ++ "=" ++ v).data = c0 :: (ks ++ '=' :: v.data) := by
    rw [hdata, hk0]
    rfl
  have hNoWs : ∀ c ∈ (k ++ "=" ++ v).data, jsWsChar c = false := by
    rw [hdata]
    intro c hc
    rcases List.mem_append.mp hc with hck | hcv
    · exact (hknws c hck).1
    · rcases List.mem_cons.mp hcv with he | hcv2
      · rw [he]
        rfl
      · exact hvnws c hcv2
  have hnl : '\n' ∉ (k ++ "=" ++ v).data := by
    intro hm
    have := hNoWs '\n' hm
    simp [jsWsChar] at this
  have hEq : '=' ∉ k.data := fun hm => (hknws '=' hm).2 rfl
  constructor
  · show (match parseTOML.go
        ((splitOnChar '\n' (k ++ "=" ++ v).data).map String.mk)
        ⟨TomlTable.nil, some []⟩ with
      | .error _ => Except.error ()
      | .ok st => Except.ok st.tree) =
      Except.ok (.cons k (.val (coerceValue v)) .nil)
    rw [splitOnChar_of_not_mem '\n' _ hnl]
    have hline : processTOMLLine ⟨TomlTable.nil, some []⟩
        (String.mk ((k ++ "=" ++ v).data)) =
        .ok ⟨.cons k (.val (coerceValue v)) .nil, some []⟩ := by
      have htrim : jsTrim (String.mk ((k ++ "=" ++ v).data)) =
          String.mk ((k ++ "=" ++ v).data) := jsTrim_mk_of_no_ws _ hNoWs
      simp only [processTOMLLine, htrim]
      have hne : ¬ (String.mk ((k ++ "=" ++ v).data) = "" ∨
          headIs (String.mk ((k ++ "=" ++ v).data)) '#' = true) := by
        rintro (h1 | h2)
        · have h1d : (k ++ "=" ++ v).data = [] := congrArg String.data h1
          rw [hcsform] at h1d
          cases h1d
        · rw [hcsform] at h2
          simp [headIs] at h2
          exact hc0hash h2
      rw [if_neg hne]
      have hnb : ¬ (headIs (String.mk ((k ++ "=" ++ v).data)) '[' = true ∧
          lastIs (String.mk ((k ++ "=" ++ v).data)) ']' = true) := by
        rintro ⟨h1, _⟩
        rw [hcsform] at h1
        simp [headIs] at h1
        exact hc0br h1
      rw [if_neg hnb]
      have hcontains : (String.mk ((k ++ "=" ++ v).data)).data.contains '=' = true := by
        show ((k ++ "=" ++ v).data).contains '=' = true
        rw [hdata]
        have hm : '=' ∈ k.data ++ '=' :: v.data :=
          List.mem_append_right _ (List.mem_cons_self _ _)
        exact List.elem_eq_true_of_mem hm
      rw [if_pos hcontains]
      have hsplit1 : ((String.mk ((k ++ "=" ++ v).data)).data.takeWhile
          (fun c => c ≠ '=')) = k.data := by
        show ((k ++ "=" ++ v).data.takeWhile (fun c => c ≠ '=')) = k.data
        rw [hdata]
        exact takeWhile_ne_append k.data v.data '=' hEq
      have hsplit2 : (((String.mk ((k ++ "=" ++ v).data)).data.dropWhile
          (fun c => c ≠ '=')).drop 1) = v.data := by
        show (((k ++ "=" ++ v).data.dropWhile (fun c => c ≠ '=')).drop 1) = v.data
        rw [hdata, dropWhile_ne_append k.data v.data '=' hEq]
        rfl
      rw [hsplit1, hsplit2]
      rw [jsTrim_mk_of_no_ws k.data (fun c hc => (hknws c hc).1),
        jsTrim_mk_of_no_ws v.data hvnws]
      rfl
    show (match
        (match processTOMLLine ⟨TomlTable.nil, some []⟩
            (String.mk ((k ++ "=" ++ v).data)) with
         | .error _ => Except.error ()
         | .ok st2 => parseTOML.go [] st2) with
      | .error _ => Except.error ()
      | .ok st => Except.ok st.tree) =
      Except.ok (.cons k (.val (coerceValue v)) .nil)
    rw [hline]
    rfl
  refine ⟨?_, ?_, ?_, ?_, ?_⟩
  · intro h1
    unfold coerceValue
    rw [if_pos h1]
  · intro _ h2
    subst h2
    decide
  · intro _ h2
    subst h2
    decide
  · intro h1 h2 h3 h4
    unfold coerceValue
    rw [if_neg h1, if_neg h2, if_neg h3, if_pos h4]
  · intro h1 h2 h3 h4
    unfold coerceValue
    rw [if_neg h1, if_neg h2, if_neg h3, if_neg (by simp [h4])]

/-- Witness for the amended C9, one line per coercion class: quoted
string, boolean, plain number, JavaScript-numeric empty value, and
fallback literal string. -/
theorem parseTOML_line_coercion_witness :
    parseTOML ("host" ++ "=" ++ "\"h\"") =
      .ok (.cons "host" (.val (coerceValue "\"h\"")) .nil) ∧
    parseTOML ("on" ++ "=" ++ "true") =
      .ok (.cons "on" (.val (coerceValue "true")) .nil) ∧
    parseTOML ("port" ++ "=" ++ "81") =
      .ok (.cons "port" (.val (coerceValue "81")) .nil) ∧
    parseTOML ("key" ++ "=" ++ "") =
      .ok (.cons "key" (.val (coerceValue "")) .nil) ∧
    parseTOML ("name" ++ "=" ++ "bob") =
      .ok (.cons "name" (.val (coerceValue "bob")) .nil) ∧
    coerceValue "\"h\"" = .vstr "h" ∧
    coerceValue "true" = .vbool true ∧
    coerceValue "81" = .vnum "81" ∧
    coerceValue "" = .vnum "" ∧
    coerceValue "bob" = .vstr "bob" :=
  ⟨(parseTOML_line_coercion "host" "\"h\"" (by decide) (by decide) (by decide)
      (by decide) (by decide)).1,
   (parseTOML_line_coercion "on" "true" (by decide) (by decide) (by decide)
      (by decide) (by decide)).1,
   (parseTOML_line_coercion "port" "81" (by decide) (by decide) (by decide)
      (by decide) (by decide)).1,
   (parseTOML_line_coercion "key" "" (by decide) (by decide) (by decide)
      (by decide) (by decide)).1,
   (parseTOML_line_coercion "name" "bob" (by decide) (by decide) (by decide)
      (by decide) (by decide)).1,
   by decide, by decide, by decide, by decide, by decide⟩

/-- Counterexample to C9 as stated: the empty value of the line
`key =` is neither quoted, boolean, nor a bare numeric token, so the
claim stores it as the literal string `""`; the parser instead stores
the number 0 (`!isNaN('')` holds in JavaScript). -/
theorem empty_value_coerced_to_number_counterexample :
    parseTOML "key =" = .ok (.cons "key" (.val (.vnum "")) .nil) ∧
    coerceValue "" = .vnum "" ∧
    TomlValue.vnum "" ≠ TomlValue.vstr "" := by
  decide

end Htmz
